import Mathlib

/-!
# Verification of `ggml-impl.h` (whisper.rn)

Shallow embedding of `src/cpp/ggml-impl.h`: the bitset, the open-addressed hash set, the
round-up helpers, the op-params accessors and the bf16 / fp16 conversions.

* `size_t` values are natural numbers below `SIZE_MOD = 2 ^ 64`; an addition
  that can leave that range is reduced modulo `SIZE_MOD`.
* `wsp_ggml_bitset_t` is a 32-bit word; a bitset is the list of its words.
* A tensor pointer is the natural number of its address; pointers are only
  hashed and compared.
* A C function that can abort, divide by zero or loop is a function into
  `Outcome`.
* `uint32_t` and `uint16_t` values are their bit patterns, sums are reduced modulo
  the word size; an `int` is its value, and a sum that leaves its range is undefined;
  a `float` is its IEEE binary32 pattern.
* The plain `assert` is checked only in a build without `NDEBUG`; the functions that
  use it take the build as a flag.
-/

namespace GgmlImpl

/-! ## Machine integers -/

/-- Number of values of a `size_t` (64-bit target). -/
def SIZE_MOD : Nat := 18446744073709551616

/-- Largest `uint32_t`, the all-ones word used for the complement `~x`. -/
def UINT32_MAX : Nat := 4294967295

/-- Result of running a C function of the model. -/
inductive Outcome (α : Type) where
  /-- the function returned normally -/
  | ret (a : α) : Outcome α
  /-- the function reached `WSP_GGML_ABORT` -/
  | abort : Outcome α
  /-- the function executed an operation without defined behaviour (`%` by zero) -/
  | undef : Outcome α
  /-- the loop budget of the model was used up before the function returned -/
  | exhausted : Outcome α
  deriving DecidableEq, Repr

/-! ## Bitset -/

/-- `#define BITSET_SHR 5` -/
def BITSET_SHR : Nat := 5

/-- `#define BITSET_MASK (sizeof(wsp_ggml_bitset_t)*8 - 1)` with `sizeof = 4`. -/
def BITSET_MASK : Nat := 4 * 8 - 1

/-- `wsp_ggml_bitset_size`: `(n + BITSET_MASK) >> BITSET_SHR` in `size_t` arithmetic. -/
def wsp_ggml_bitset_size (n : Nat) : Nat :=
  ((n + BITSET_MASK) % SIZE_MOD) >>> BITSET_SHR

/-- `wsp_ggml_bitset_get`: `!!(bitset[i >> BITSET_SHR] & (1u << (i & BITSET_MASK)))`. -/
def wsp_ggml_bitset_get (bitset : List Nat) (i : Nat) : Bool :=
  (bitset.getD (i >>> BITSET_SHR) 0 &&& (1 <<< (i &&& BITSET_MASK))) != 0

/-- `wsp_ggml_bitset_set`: `bitset[i >> BITSET_SHR] |= (1u << (i & BITSET_MASK))`. -/
def wsp_ggml_bitset_set (bitset : List Nat) (i : Nat) : List Nat :=
  bitset.set (i >>> BITSET_SHR)
    (bitset.getD (i >>> BITSET_SHR) 0 ||| (1 <<< (i &&& BITSET_MASK)))

/-- `wsp_ggml_bitset_clear`: `bitset[i >> BITSET_SHR] &= ~(1u << (i & BITSET_MASK))`;
the complement of a 32-bit word `x` is `UINT32_MAX ^^^ x`. -/
def wsp_ggml_bitset_clear (bitset : List Nat) (i : Nat) : List Nat :=
  bitset.set (i >>> BITSET_SHR)
    (bitset.getD (i >>> BITSET_SHR) 0 &&& (UINT32_MAX ^^^ (1 <<< (i &&& BITSET_MASK))))

/-! ## Hash set -/

/-- `#define WSP_GGML_HASHSET_FULL ((size_t)-1)` -/
def WSP_GGML_HASHSET_FULL : Nat := SIZE_MOD - 1

/-- `#define WSP_GGML_HASHSET_ALREADY_EXISTS ((size_t)-2)` -/
def WSP_GGML_HASHSET_ALREADY_EXISTS : Nat := SIZE_MOD - 2

/-- `struct wsp_ggml_hash_set`: capacity, occupancy bitset and key array. -/
structure wsp_ggml_hash_set where
  size : Nat
  used : List Nat
  keys : List Nat
  deriving DecidableEq, Repr

/-- `wsp_ggml_hash`: `(size_t)(uintptr_t)p >> 4`. -/
def wsp_ggml_hash (p : Nat) : Nat := p >>> 4

/-- The `while` loop of `wsp_ggml_hash_find`, entered at slot `i` with first slot `h`.
Each unit of budget pays for one evaluation of the loop condition. -/
def wsp_ggml_hash_find_loop (hs : wsp_ggml_hash_set) (key h : Nat) : Nat → Nat → Outcome Nat
  | 0, _ => Outcome.exhausted
  | budget + 1, i =>
    if wsp_ggml_bitset_get hs.used i && hs.keys.getD i 0 != key then
      let i1 := ((i + 1) % SIZE_MOD) % hs.size
      if i1 = h then
        -- visited all hash table entries -> not found
        Outcome.ret WSP_GGML_HASHSET_FULL
      else
        wsp_ggml_hash_find_loop hs key h budget i1
    else
      Outcome.ret i

/-- `wsp_ggml_hash_find`. The remainder by `hash_set->size` is undefined for size zero. -/
def wsp_ggml_hash_find (hs : wsp_ggml_hash_set) (key : Nat) : Outcome Nat :=
  if hs.size = 0 then Outcome.undef
  else
    let h := wsp_ggml_hash key % hs.size
    wsp_ggml_hash_find_loop hs key h hs.size h

/-- `wsp_ggml_hash_contains`: `i != WSP_GGML_HASHSET_FULL && wsp_ggml_bitset_get(used, i)`. -/
def wsp_ggml_hash_contains (hs : wsp_ggml_hash_set) (key : Nat) : Outcome Bool :=
  match wsp_ggml_hash_find hs key with
  | Outcome.ret i => Outcome.ret (i != WSP_GGML_HASHSET_FULL && wsp_ggml_bitset_get hs.used i)
  | Outcome.abort => Outcome.abort
  | Outcome.undef => Outcome.undef
  | Outcome.exhausted => Outcome.exhausted

/-- The `do ... while (i != h)` loop of `wsp_ggml_hash_insert`, entered at slot `i`.
A normal return carries the returned `size_t` and the updated set. -/
def wsp_ggml_hash_insert_loop (hs : wsp_ggml_hash_set) (key h : Nat) :
    Nat → Nat → Outcome (Nat × wsp_ggml_hash_set)
  | 0, _ => Outcome.exhausted
  | budget + 1, i =>
    if !wsp_ggml_bitset_get hs.used i then
      Outcome.ret (i, { hs with used := wsp_ggml_bitset_set hs.used i, keys := hs.keys.set i key })
    else if hs.keys.getD i 0 == key then
      Outcome.ret (WSP_GGML_HASHSET_ALREADY_EXISTS, hs)
    else
      let i1 := ((i + 1) % SIZE_MOD) % hs.size
      if i1 != h then
        wsp_ggml_hash_insert_loop hs key h budget i1
      else
        -- visited all hash table entries -> not found
        Outcome.abort

/-- `wsp_ggml_hash_insert`. -/
def wsp_ggml_hash_insert (hs : wsp_ggml_hash_set) (key : Nat) :
    Outcome (Nat × wsp_ggml_hash_set) :=
  if hs.size = 0 then Outcome.undef
  else
    let h := wsp_ggml_hash key % hs.size
    wsp_ggml_hash_insert_loop hs key h hs.size h

/-- The `do ... while (i != h)` loop of `wsp_ggml_hash_find_or_insert`. -/
def wsp_ggml_hash_find_or_insert_loop (hs : wsp_ggml_hash_set) (key h : Nat) :
    Nat → Nat → Outcome (Nat × wsp_ggml_hash_set)
  | 0, _ => Outcome.exhausted
  | budget + 1, i =>
    if !wsp_ggml_bitset_get hs.used i then
      Outcome.ret (i, { hs with used := wsp_ggml_bitset_set hs.used i, keys := hs.keys.set i key })
    else if hs.keys.getD i 0 == key then
      Outcome.ret (i, hs)
    else
      let i1 := ((i + 1) % SIZE_MOD) % hs.size
      if i1 != h then
        wsp_ggml_hash_find_or_insert_loop hs key h budget i1
      else
        -- visited all hash table entries -> not found
        Outcome.abort

/-- `wsp_ggml_hash_find_or_insert`. -/
def wsp_ggml_hash_find_or_insert (hs : wsp_ggml_hash_set) (key : Nat) :
    Outcome (Nat × wsp_ggml_hash_set) :=
  if hs.size = 0 then Outcome.undef
  else
    let h := wsp_ggml_hash key % hs.size
    wsp_ggml_hash_find_or_insert_loop hs key h hs.size h

/-! ## Probe paths and runs of operations -/

/-- Slot at offset `d` of the cyclic probe path `h, h+1, ... (mod size)` of `key`,
where `h = wsp_ggml_hash(key) % size`. -/
def probe (hs : wsp_ggml_hash_set) (key d : Nat) : Nat :=
  (wsp_ggml_hash key % hs.size + d) % hs.size

/-- The condition under which the probe loops move on from slot `i`: the slot is
occupied and its key differs from `key`. -/
def busy (hs : wsp_ggml_hash_set) (key i : Nat) : Bool :=
  wsp_ggml_bitset_get hs.used i && hs.keys.getD i 0 != key

/-- The state written by the insert branch of the loops: bit `i` set, `keys[i] = key`. -/
def store (hs : wsp_ggml_hash_set) (i key : Nat) : wsp_ggml_hash_set :=
  { hs with used := wsp_ggml_bitset_set hs.used i, keys := hs.keys.set i key }

/-- Offset `e` is the first one on the probe path of `key` whose slot is not busy. -/
def FirstFree (hs : wsp_ggml_hash_set) (key e : Nat) : Prop :=
  e < hs.size ∧ (∀ j, j < e → busy hs key (probe hs key j) = true) ∧
    busy hs key (probe hs key e) = false

/-- Every slot of the probe path of `key` is busy: the probe wraps completely. -/
def AllBusy (hs : wsp_ggml_hash_set) (key : Nat) : Prop :=
  ∀ j, j < hs.size → busy hs key (probe hs key j) = true

/-- The buffers of the set have the sizes the capacity asks for, and the capacity is a
positive `size_t`. -/
def WellFormed (hs : wsp_ggml_hash_set) : Prop :=
  0 < hs.size ∧ hs.size < SIZE_MOD ∧ hs.keys.length = hs.size ∧ hs.size ≤ 32 * hs.used.length

/-- Probe-chain property: every occupied slot is reached by the probe of the key it
holds, through slots that are occupied by other keys. -/
def Chain (hs : wsp_ggml_hash_set) : Prop :=
  ∀ i, i < hs.size → wsp_ggml_bitset_get hs.used i = true →
    ∃ d, FirstFree hs (hs.keys.getD i 0) d ∧ probe hs (hs.keys.getD i 0) d = i

/-- A call of one of the two inserting operations. -/
inductive hash_op where
  | insert (key : Nat) : hash_op
  | find_or_insert (key : Nat) : hash_op
  deriving DecidableEq, Repr

/-- Key passed to the call. -/
def hash_op.key : hash_op → Nat
  | hash_op.insert key => key
  | hash_op.find_or_insert key => key

/-- Run one call on the set. -/
def hash_op.run (hs : wsp_ggml_hash_set) : hash_op → Outcome (Nat × wsp_ggml_hash_set)
  | hash_op.insert key => wsp_ggml_hash_insert hs key
  | hash_op.find_or_insert key => wsp_ggml_hash_find_or_insert hs key

/-- Run a sequence of calls one after the other, each on the state the previous one
left; the result lists the values the calls returned, in order, and the final state.
A call that does not return normally ends the run with its outcome. -/
def run_ops : wsp_ggml_hash_set → List hash_op → Outcome (List Nat × wsp_ggml_hash_set)
  | hs, [] => Outcome.ret ([], hs)
  | hs, op :: ops =>
    match op.run hs with
    | Outcome.ret (v, hs1) =>
      match run_ops hs1 ops with
      | Outcome.ret (vs, hs2) => Outcome.ret (v :: vs, hs2)
      | Outcome.abort => Outcome.abort
      | Outcome.undef => Outcome.undef
      | Outcome.exhausted => Outcome.exhausted
    | Outcome.abort => Outcome.abort
    | Outcome.undef => Outcome.undef
    | Outcome.exhausted => Outcome.exhausted

/-- Invariant of the states reached from an empty set once the keys of `S` have been
passed to the inserting operations: the buffers fit the capacity, the probe-chain
property holds, and the occupied slots hold exactly the keys of `S`. -/
def Inv (hs : wsp_ggml_hash_set) (S : Finset Nat) : Prop :=
  WellFormed hs ∧ Chain hs ∧
  (∀ i, i < hs.size → wsp_ggml_bitset_get hs.used i = true → hs.keys.getD i 0 ∈ S) ∧
  (∀ x, x ∈ S → ∃ i, i < hs.size ∧ wsp_ggml_bitset_get hs.used i = true ∧ hs.keys.getD i 0 = x)

/-! ## Sample states -/

/-- A set of capacity 3 whose slots 1 and 2 hold the keys 16 and 32; slot 0 is free. -/
def sample_set : wsp_ggml_hash_set := { size := 3, used := [6], keys := [0, 16, 32] }

/-- A set of capacity 1 whose only slot holds the key 16: a full table. -/
def full_set : wsp_ggml_hash_set := { size := 1, used := [1], keys := [16] }

/-- A set of capacity 4 with no slot occupied. -/
def empty_set : wsp_ggml_hash_set := { size := 4, used := [0], keys := [0, 0, 0, 0] }

/-- A set of capacity 0 with no buffers: `{ 0, NULL, NULL }`. -/
def null_set : wsp_ggml_hash_set := { size := 0, used := [], keys := [] }

/-! ## Rounding up to a power of two

A C `int` is the integer it denotes, between `INT_MIN` and `INT_MAX`. A sum or a
difference of `int`s whose result leaves that range is undefined and ends the call with
`Outcome.undef`. The operators `&` and `~` act on the 32-bit two's complement patterns. -/

/-- Number of values of a 32-bit word. -/
def UINT32_MOD : Nat := 4294967296

/-- Number of values of a 16-bit word. -/
def UINT16_MOD : Nat := 65536

/-- Largest `int`. -/
def INT_MAX : Int := 2147483647

/-- Smallest `int`. -/
def INT_MIN : Int := -2147483648

/-- Value of an `int32_t` from its two's complement pattern. -/
def int32_of_bits (w : Nat) : Int :=
  if w < 2147483648 then (w : Int) else (w : Int) - 4294967296

/-- Two's complement pattern of an `int32_t`. -/
def bits_of_int32 (v : Int) : Nat := (v % 4294967296).toNat

/-- The integer is the value of an `int`. -/
def int_in_range (x : Int) : Bool := decide (INT_MIN ≤ x) && decide (x ≤ INT_MAX)

/-- `a & b` on `int`s. -/
def int_and (a b : Int) : Int := int32_of_bits (bits_of_int32 a &&& bits_of_int32 b)

/-- `~a` on an `int`. -/
def int_not (a : Int) : Int := int32_of_bits (UINT32_MAX ^^^ bits_of_int32 a)

/-- `wsp_ggml_up32`: `return (n + 31) & ~31;`. The sum `n + 31` is undefined when it
exceeds `INT_MAX`. -/
def wsp_ggml_up32 (n : Int) : Outcome Int :=
  if int_in_range (n + 31) then Outcome.ret (int_and (n + 31) (int_not 31))
  else Outcome.undef

/-- `wsp_ggml_up`: `WSP_GGML_ASSERT((m & (m - 1)) == 0); return (n + m - 1) & ~(m - 1);`.
The expression `n + m - 1` is `(n + m) - 1`: each of `m - 1`, `n + m` and `(n + m) - 1`
is undefined when it leaves the range of `int`. -/
def wsp_ggml_up (n m : Int) : Outcome Int :=
  if !int_in_range (m - 1) then Outcome.undef
  else if int_and m (m - 1) != 0 then Outcome.abort
  else if !int_in_range (n + m) then Outcome.undef
  else if !int_in_range (n + m - 1) then Outcome.undef
  else Outcome.ret (int_and (n + m - 1) (int_not (m - 1)))

/-! ## bf16 conversion

A `float` is its IEEE binary32 bit pattern, a natural number below `UINT32_MOD`; the
unions of the source read that pattern. A `wsp_ggml_bf16_t` is its 16-bit field `bits`. -/

/-- `wsp_ggml_compute_bf16_to_fp32`: `u.i = (uint32_t)h.bits << 16`. -/
def wsp_ggml_compute_bf16_to_fp32 (h : Nat) : Nat :=
  (h <<< 16) % UINT32_MOD

/-- `wsp_ggml_compute_fp32_to_bf16`: the NaN branch stores `(u.i >> 16) | 64`, the other
branch `(u.i + (0x7fff + ((u.i >> 16) & 1))) >> 16`, both into the 16-bit `bits`. -/
def wsp_ggml_compute_fp32_to_bf16 (s : Nat) : Nat :=
  if (s &&& 0x7fffffff) > 0x7f800000 then
    ((s >>> 16) ||| 64) % UINT16_MOD
  else
    (((s + (0x7fff + ((s >>> 16) &&& 1))) % UINT32_MOD) >>> 16) % UINT16_MOD

/-! ## IEEE binary32 arithmetic on bit patterns

The portable path of the fp16 conversion multiplies, adds and subtracts `float` values.
These operations are the IEEE 754 binary32 ones, rounding to nearest with ties to even.
A finite pattern with exponent field `e` and fraction `f` has the value
`fp32_mant * 2 ^ (fp32_qexp - 149)`. An operation with a NaN operand returns that
operand with its quiet bit set (the first one when both operands are NaNs); an invalid
operation (`inf * 0`, `inf - inf`) returns the default quiet NaN, taken here with a
clear sign bit. -/

/-- Pattern of the default quiet NaN. -/
def FP32_QNAN : Nat := 0x7FC00000

/-- Pattern of `+inf`. -/
def FP32_INF : Nat := 0x7F800000

/-- Sign bit of a pattern. -/
def fp32_sign (w : Nat) : Nat := w / 2147483648 % 2

/-- Exponent field of a pattern. -/
def fp32_expo (w : Nat) : Nat := w / 8388608 % 256

/-- Fraction field of a pattern. -/
def fp32_frac (w : Nat) : Nat := w % 8388608

/-- The pattern is a NaN. -/
def fp32_is_nan (w : Nat) : Bool := fp32_expo w == 255 && fp32_frac w != 0

/-- The pattern is an infinity. -/
def fp32_is_inf (w : Nat) : Bool := fp32_expo w == 255 && fp32_frac w == 0

/-- The pattern is a zero. -/
def fp32_is_zero (w : Nat) : Bool := fp32_expo w == 0 && fp32_frac w == 0

/-- Integer significand of a finite pattern (hidden bit included for normal numbers). -/
def fp32_mant (w : Nat) : Nat :=
  if fp32_expo w = 0 then fp32_frac w else 8388608 + fp32_frac w

/-- Exponent of the unit of the significand, biased by 149. -/
def fp32_qexp (w : Nat) : Nat :=
  if fp32_expo w = 0 then 0 else fp32_expo w - 1

/-- Number of binary digits of `m`, found by halving at most `budget` times. -/
def fp32_bit_length_loop : Nat → Nat → Nat
  | 0, _ => 0
  | budget + 1, m => if m = 0 then 0 else fp32_bit_length_loop budget (m / 2) + 1

/-- Number of binary digits of `m`: `2 ^ (len - 1) <= m < 2 ^ len` for `m > 0`. -/
def fp32_bit_length (m : Nat) : Nat := fp32_bit_length_loop m m

/-- Shift `m` right by `k >= 1` bits, rounding to nearest with ties to even. -/
def fp32_shift_round (m k : Nat) : Nat :=
  let n0 := m / 2 ^ k
  let r := m % 2 ^ k
  let half := 2 ^ (k - 1)
  if r > half ∨ (r = half ∧ n0 % 2 = 1) then n0 + 1 else n0

/-- Pattern of the binary32 nearest (ties to even) to `(-1)^sign * m * 2 ^ (q - b)`:
the unit exponent of the result, biased by 149, is `q + len + 125 - b` cut off at 0
(subnormal range), the significand is shifted to that unit, and the magnitude saturates
at infinity. -/
def fp32_round (sign m q b : Nat) : Nat :=
  if m = 0 then sign * 2147483648
  else
    let len := fp32_bit_length m
    let qp := q + len + 125 - b
    let n := if b + qp ≤ q + 149 then m * 2 ^ (q + 149 - b - qp)
             else fp32_shift_round m (b + qp - (q + 149))
    sign * 2147483648 + min (qp * 8388608 + n) FP32_INF

/-- Result of an operation with a NaN operand: the first NaN operand, quieted. -/
def fp32_nan_operand (a b : Nat) : Nat :=
  if fp32_is_nan a then a ||| 0x00400000 else b ||| 0x00400000

/-- Product `a * b` of two `float`s. -/
def fp32_mul (a b : Nat) : Nat :=
  if fp32_is_nan a || fp32_is_nan b then fp32_nan_operand a b
  else if fp32_is_inf a || fp32_is_inf b then
    if fp32_is_zero a || fp32_is_zero b then FP32_QNAN
    else (fp32_sign a + fp32_sign b) % 2 * 2147483648 + FP32_INF
  else
    fp32_round ((fp32_sign a + fp32_sign b) % 2) (fp32_mant a * fp32_mant b)
      (fp32_qexp a + fp32_qexp b) 298

/-- Sum `a + b` of two `float`s. -/
def fp32_add (a b : Nat) : Nat :=
  if fp32_is_nan a || fp32_is_nan b then fp32_nan_operand a b
  else if fp32_is_inf a then
    if fp32_is_inf b && fp32_sign a != fp32_sign b then FP32_QNAN else a
  else if fp32_is_inf b then b
  else
    let q := min (fp32_qexp a) (fp32_qexp b)
    let x := fp32_mant a * 2 ^ (fp32_qexp a - q)
    let y := fp32_mant b * 2 ^ (fp32_qexp b - q)
    if fp32_sign a = fp32_sign b then fp32_round (fp32_sign a) (x + y) q 149
    else if y < x then fp32_round (fp32_sign a) (x - y) q 149
    else if x < y then fp32_round (fp32_sign b) (y - x) q 149
    else 0

/-- Difference `a - b` of two `float`s: the sum of `a` and `b` with its sign flipped,
unless an operand is a NaN. -/
def fp32_sub (a b : Nat) : Nat :=
  if fp32_is_nan a || fp32_is_nan b then fp32_nan_operand a b
  else fp32_add a (b ^^^ 0x80000000)

/-- `fabsf`: the pattern with the sign bit cleared. -/
def fabsf (w : Nat) : Nat := w &&& 0x7FFFFFFF

/-! ## fp16 conversion, portable path

A `wsp_ggml_fp16_t` is a 16-bit pattern. `fp32_from_bits` and `fp32_to_bits` are the
identity on patterns. -/

/-- `fp32_from_bits`. -/
def fp32_from_bits (w : Nat) : Nat := w

/-- `fp32_to_bits`. -/
def fp32_to_bits (f : Nat) : Nat := f

/-- `wsp_ggml_compute_fp16_to_fp32` of the `#else` branch. -/
def wsp_ggml_compute_fp16_to_fp32 (h : Nat) : Nat :=
  let w := (h <<< 16) % UINT32_MOD
  let sign := w &&& 0x80000000
  let two_w := (w + w) % UINT32_MOD
  let exp_offset := (0xE0 <<< 23) % UINT32_MOD
  let exp_scale := fp32_from_bits 0x7800000
  let normalized_value :=
    fp32_mul (fp32_from_bits (((two_w >>> 4) + exp_offset) % UINT32_MOD)) exp_scale
  let magic_mask := (126 <<< 23) % UINT32_MOD
  let magic_bias := 0x3F000000
  let denormalized_value := fp32_sub (fp32_from_bits ((two_w >>> 17) ||| magic_mask)) magic_bias
  let denormalized_cutoff := (1 <<< 27) % UINT32_MOD
  let result := sign |||
    (if two_w < denormalized_cutoff then fp32_to_bits denormalized_value
     else fp32_to_bits normalized_value)
  fp32_from_bits result

/-- The integer part of `wsp_ggml_compute_fp32_to_fp16`, from the pattern `w` of the
argument and the pattern `bits` of the float `base` after the two float steps. -/
def wsp_ggml_compute_fp32_to_fp16_bits (w bits : Nat) : Nat :=
  let shl1_w := (w + w) % UINT32_MOD
  let sign := w &&& 0x80000000
  let exp_bits := (bits >>> 13) &&& 0x00007C00
  let mantissa_bits := bits &&& 0x00000FFF
  let nonsign := (exp_bits + mantissa_bits) % UINT32_MOD
  ((sign >>> 16) ||| (if shl1_w > 0xFF000000 then 0x7E00 else nonsign)) % UINT16_MOD

/-- `wsp_ggml_compute_fp32_to_fp16` of the `#else` branch. -/
def wsp_ggml_compute_fp32_to_fp16 (f : Nat) : Nat :=
  let scale_to_inf := fp32_from_bits 0x77800000
  let scale_to_zero := fp32_from_bits 0x08800000
  let base0 := fp32_mul (fp32_mul (fabsf f) scale_to_inf) scale_to_zero
  let w := fp32_to_bits f
  let shl1_w := (w + w) % UINT32_MOD
  let bias0 := shl1_w &&& 0xFF000000
  let bias := if bias0 < 0x71000000 then 0x71000000 else bias0
  let base := fp32_add (fp32_from_bits (((bias >>> 1) + 0x07800000) % UINT32_MOD)) base0
  wsp_ggml_compute_fp32_to_fp16_bits w (fp32_to_bits base)

/-! ## Op params

The `op_params` blob of a tensor is the list of its bytes; a 32-bit slot `i` is the four
bytes from offset `4 * i`, least significant first. A tensor pointer is `none` when it
is `NULL` and `some blob` otherwise. The capacity `WSP_GGML_MAX_OP_PARAMS` is declared
outside this header and is the parameter `cap`.

`WSP_GGML_ASSERT` is checked in every build. The plain `assert` of `<assert.h>` is
checked only when `NDEBUG` is not defined: the functions take the build as the flag
`ndebug`, and with `ndebug = true` the `assert` is no statement at all. A check that
fails ends the call with `Outcome.abort`; an access outside the blob is undefined. A
setter returns, next to its outcome, the blob as it is when the call ends. -/

/-- Read the 32-bit word stored at byte offset `off`. -/
def load32 (mem : List Nat) (off : Nat) : Nat :=
  mem.getD off 0 + 256 * mem.getD (off + 1) 0 + 65536 * mem.getD (off + 2) 0
    + 16777216 * mem.getD (off + 3) 0

/-- Write the 32-bit word `w` at byte offset `off`. -/
def store32 (mem : List Nat) (off w : Nat) : List Nat :=
  (((mem.set off (w % 256)).set (off + 1) (w / 256 % 256)).set (off + 2) (w / 65536 % 256)).set
    (off + 3) (w / 16777216 % 256)

/-- `wsp_ggml_set_op_params`: `WSP_GGML_ASSERT(tensor != NULL);
assert(params_size <= WSP_GGML_MAX_OP_PARAMS); memcpy(tensor->op_params, params,
params_size);`. A copy that leaves the source or the blob is undefined. -/
def wsp_ggml_set_op_params (ndebug : Bool) (cap : Nat) (tensor : Option (List Nat))
    (params : List Nat) (params_size : Nat) : Outcome Unit × Option (List Nat) :=
  match tensor with
  | none => (Outcome.abort, none)
  | some blob =>
    if !ndebug && !decide (params_size ≤ cap) then (Outcome.abort, some blob)
    else if params_size ≤ params.length ∧ params_size ≤ blob.length then
      (Outcome.ret (), some (params.take params_size ++ blob.drop params_size))
    else (Outcome.undef, some blob)

/-- `wsp_ggml_get_op_params_i32`: `assert(i < WSP_GGML_MAX_OP_PARAMS / sizeof(int32_t));
return ((const int32_t *)(tensor->op_params))[i];`. -/
def wsp_ggml_get_op_params_i32 (ndebug : Bool) (cap : Nat) (tensor : Option (List Nat))
    (i : Nat) : Outcome Int :=
  if !ndebug && !decide (i < cap / 4) then Outcome.abort
  else
    match tensor with
    | none => Outcome.undef
    | some blob =>
      if 4 * i + 3 < blob.length then Outcome.ret (int32_of_bits (load32 blob (4 * i)))
      else Outcome.undef

/-- `wsp_ggml_get_op_params_f32`: `assert(i < WSP_GGML_MAX_OP_PARAMS / sizeof(float));
return ((const float *)(tensor->op_params))[i];`, the float as its pattern. -/
def wsp_ggml_get_op_params_f32 (ndebug : Bool) (cap : Nat) (tensor : Option (List Nat))
    (i : Nat) : Outcome Nat :=
  if !ndebug && !decide (i < cap / 4) then Outcome.abort
  else
    match tensor with
    | none => Outcome.undef
    | some blob =>
      if 4 * i + 3 < blob.length then Outcome.ret (fp32_from_bits (load32 blob (4 * i)))
      else Outcome.undef

/-- `wsp_ggml_set_op_params_i32`: `assert(i < WSP_GGML_MAX_OP_PARAMS / sizeof(int32_t));
((int32_t *)(tensor->op_params))[i] = value;`. -/
def wsp_ggml_set_op_params_i32 (ndebug : Bool) (cap : Nat) (tensor : Option (List Nat))
    (i : Nat) (value : Int) : Outcome Unit × Option (List Nat) :=
  if !ndebug && !decide (i < cap / 4) then (Outcome.abort, tensor)
  else
    match tensor with
    | none => (Outcome.undef, none)
    | some blob =>
      if 4 * i + 3 < blob.length then
        (Outcome.ret (), some (store32 blob (4 * i) (bits_of_int32 value)))
      else (Outcome.undef, some blob)

/-- `wsp_ggml_set_op_params_f32`: `assert(i < WSP_GGML_MAX_OP_PARAMS / sizeof(float));
((float *)(tensor->op_params))[i] = value;`, the float as its pattern. -/
def wsp_ggml_set_op_params_f32 (ndebug : Bool) (cap : Nat) (tensor : Option (List Nat))
    (i : Nat) (value : Nat) : Outcome Unit × Option (List Nat) :=
  if !ndebug && !decide (i < cap / 4) then (Outcome.abort, tensor)
  else
    match tensor with
    | none => (Outcome.undef, none)
    | some blob =>
      if 4 * i + 3 < blob.length then
        (Outcome.ret (), some (store32 blob (4 * i) (fp32_to_bits value)))
      else (Outcome.undef, some blob)

/-- A blob of 64 zero bytes. -/
def zero_blob : List Nat := List.replicate 64 0

/-! ## Hash set operations with checked accesses

The same functions with every access made explicit: a slot index passed to
`wsp_ggml_bitset_get` / `wsp_ggml_bitset_set` or used to index `keys` has to be below
`size`, and the word of the bitset and the entry of `keys` have to exist; otherwise the
call ends with `Outcome.undef`. -/

/-- `wsp_ggml_bitset_get` reading the word `bitset[i >> BITSET_SHR]` only if it exists. -/
def wsp_ggml_bitset_get_checked (bitset : List Nat) (i : Nat) : Option Bool :=
  match bitset[i >>> BITSET_SHR]? with
  | some w => some ((w &&& (1 <<< (i &&& BITSET_MASK))) != 0)
  | none => none

/-- `wsp_ggml_bitset_set` updating the word `bitset[i >> BITSET_SHR]` only if it exists. -/
def wsp_ggml_bitset_set_checked (bitset : List Nat) (i : Nat) : Option (List Nat) :=
  match bitset[i >>> BITSET_SHR]? with
  | some w => some (bitset.set (i >>> BITSET_SHR) (w ||| (1 <<< (i &&& BITSET_MASK))))
  | none => none

/-- The loop of `wsp_ggml_hash_find` with checked accesses. -/
def wsp_ggml_hash_find_loop_checked (hs : wsp_ggml_hash_set) (key h : Nat) :
    Nat → Nat → Outcome Nat
  | 0, _ => Outcome.exhausted
  | budget + 1, i =>
    if i < hs.size then
      match wsp_ggml_bitset_get_checked hs.used i with
      | none => Outcome.undef
      | some false => Outcome.ret i
      | some true =>
        match hs.keys[i]? with
        | none => Outcome.undef
        | some k =>
          if k != key then
            let i1 := ((i + 1) % SIZE_MOD) % hs.size
            if i1 = h then Outcome.ret WSP_GGML_HASHSET_FULL
            else wsp_ggml_hash_find_loop_checked hs key h budget i1
          else Outcome.ret i
    else Outcome.undef

/-- `wsp_ggml_hash_find` with checked accesses. -/
def wsp_ggml_hash_find_checked (hs : wsp_ggml_hash_set) (key : Nat) : Outcome Nat :=
  if hs.size = 0 then Outcome.undef
  else
    let h := wsp_ggml_hash key % hs.size
    wsp_ggml_hash_find_loop_checked hs key h hs.size h

/-- `wsp_ggml_hash_contains` with checked accesses. -/
def wsp_ggml_hash_contains_checked (hs : wsp_ggml_hash_set) (key : Nat) : Outcome Bool :=
  match wsp_ggml_hash_find_checked hs key with
  | Outcome.ret i =>
    if i != WSP_GGML_HASHSET_FULL then
      if i < hs.size then
        match wsp_ggml_bitset_get_checked hs.used i with
        | some b => Outcome.ret b
        | none => Outcome.undef
      else Outcome.undef
    else Outcome.ret false
  | Outcome.abort => Outcome.abort
  | Outcome.undef => Outcome.undef
  | Outcome.exhausted => Outcome.exhausted

/-- The loop of `wsp_ggml_hash_insert` with checked accesses. -/
def wsp_ggml_hash_insert_loop_checked (hs : wsp_ggml_hash_set) (key h : Nat) :
    Nat → Nat → Outcome (Nat × wsp_ggml_hash_set)
  | 0, _ => Outcome.exhausted
  | budget + 1, i =>
    if i < hs.size then
      match wsp_ggml_bitset_get_checked hs.used i with
      | none => Outcome.undef
      | some false =>
        match wsp_ggml_bitset_set_checked hs.used i with
        | none => Outcome.undef
        | some used1 =>
          if i < hs.keys.length then
            Outcome.ret (i, { hs with used := used1, keys := hs.keys.set i key })
          else Outcome.undef
      | some true =>
        match hs.keys[i]? with
        | none => Outcome.undef
        | some k =>
          if k == key then Outcome.ret (WSP_GGML_HASHSET_ALREADY_EXISTS, hs)
          else
            let i1 := ((i + 1) % SIZE_MOD) % hs.size
            if i1 != h then wsp_ggml_hash_insert_loop_checked hs key h budget i1
            else Outcome.abort
    else Outcome.undef

/-- `wsp_ggml_hash_insert` with checked accesses. -/
def wsp_ggml_hash_insert_checked (hs : wsp_ggml_hash_set) (key : Nat) :
    Outcome (Nat × wsp_ggml_hash_set) :=
  if hs.size = 0 then Outcome.undef
  else
    let h := wsp_ggml_hash key % hs.size
    wsp_ggml_hash_insert_loop_checked hs key h hs.size h

/-- The loop of `wsp_ggml_hash_find_or_insert` with checked accesses. -/
def wsp_ggml_hash_find_or_insert_loop_checked (hs : wsp_ggml_hash_set) (key h : Nat) :
    Nat → Nat → Outcome (Nat × wsp_ggml_hash_set)
  | 0, _ => Outcome.exhausted
  | budget + 1, i =>
    if i < hs.size then
      match wsp_ggml_bitset_get_checked hs.used i with
      | none => Outcome.undef
      | some false =>
        match wsp_ggml_bitset_set_checked hs.used i with
        | none => Outcome.undef
        | some used1 =>
          if i < hs.keys.length then
            Outcome.ret (i, { hs with used := used1, keys := hs.keys.set i key })
          else Outcome.undef
      | some true =>
        match hs.keys[i]? with
        | none => Outcome.undef
        | some k =>
          if k == key then Outcome.ret (i, hs)
          else
            let i1 := ((i + 1) % SIZE_MOD) % hs.size
            if i1 != h then wsp_ggml_hash_find_or_insert_loop_checked hs key h budget i1
            else Outcome.abort
    else Outcome.undef

/-- `wsp_ggml_hash_find_or_insert` with checked accesses. -/
def wsp_ggml_hash_find_or_insert_checked (hs : wsp_ggml_hash_set) (key : Nat) :
    Outcome (Nat × wsp_ggml_hash_set) :=
  if hs.size = 0 then Outcome.undef
  else
    let h := wsp_ggml_hash key % hs.size
    wsp_ggml_hash_find_or_insert_loop_checked hs key h hs.size h

/-! ## Bitset lemmas -/

theorem bitset_get_eq_testBit (b : List Nat) (i : Nat) :
    wsp_ggml_bitset_get b i = (b.getD (i / 32) 0).testBit (i % 32) := by
  have h1 : i >>> BITSET_SHR = i / 32 := by
    simp [BITSET_SHR, Nat.shiftRight_eq_div_pow]
  have h2 : i &&& BITSET_MASK = i % 32 := by
    have := Nat.and_pow_two_sub_one_eq_mod i 5
    simpa [BITSET_MASK] using this
  unfold wsp_ggml_bitset_get
  rw [h1, h2, Nat.one_shiftLeft, Nat.and_two_pow]
  cases h : (b.getD (i / 32) 0).testBit (i % 32) <;> simp

theorem bitset_set_eq (b : List Nat) (i : Nat) :
    wsp_ggml_bitset_set b i = b.set (i / 32) (b.getD (i / 32) 0 ||| 2 ^ (i % 32)) := by
  have h1 : i >>> BITSET_SHR = i / 32 := by
    simp [BITSET_SHR, Nat.shiftRight_eq_div_pow]
  have h2 : i &&& BITSET_MASK = i % 32 := by
    have := Nat.and_pow_two_sub_one_eq_mod i 5
    simpa [BITSET_MASK] using this
  unfold wsp_ggml_bitset_set
  rw [h1, h2, Nat.one_shiftLeft]

theorem bitset_clear_eq (b : List Nat) (i : Nat) :
    wsp_ggml_bitset_clear b i
      = b.set (i / 32) (b.getD (i / 32) 0 &&& (UINT32_MAX ^^^ 2 ^ (i % 32))) := by
  have h1 : i >>> BITSET_SHR = i / 32 := by
    simp [BITSET_SHR, Nat.shiftRight_eq_div_pow]
  have h2 : i &&& BITSET_MASK = i % 32 := by
    have := Nat.and_pow_two_sub_one_eq_mod i 5
    simpa [BITSET_MASK] using this
  unfold wsp_ggml_bitset_clear
  rw [h1, h2, Nat.one_shiftLeft]

theorem testBit_UINT32_MAX (k : Nat) : UINT32_MAX.testBit k = decide (k < 32) := by
  have h := Nat.testBit_two_pow_sub_one 32 k
  have e : UINT32_MAX = 2 ^ 32 - 1 := by decide
  rw [e]; exact h

theorem bitset_set_length (b : List Nat) (i : Nat) :
    (wsp_ggml_bitset_set b i).length = b.length := by
  simp [wsp_ggml_bitset_set]

theorem bitset_get_set_self (b : List Nat) (i : Nat) (hi : i / 32 < b.length) :
    wsp_ggml_bitset_get (wsp_ggml_bitset_set b i) i = true := by
  rw [bitset_get_eq_testBit, bitset_set_eq, List.getD_eq_getElem?_getD,
    List.getElem?_set_self hi]
  simp [Nat.testBit_or, Nat.testBit_two_pow_self]

theorem bitset_get_set_other (b : List Nat) (i j : Nat) (hji : j ≠ i) :
    wsp_ggml_bitset_get (wsp_ggml_bitset_set b i) j = wsp_ggml_bitset_get b j := by
  rw [bitset_get_eq_testBit, bitset_get_eq_testBit, bitset_set_eq]
  simp only [List.getD_eq_getElem?_getD]
  by_cases hw : i / 32 = j / 32
  · have hbit : i % 32 ≠ j % 32 := by omega
    by_cases hlen : i / 32 < b.length
    · rw [← hw, List.getElem?_set_self hlen]
      simp [Nat.testBit_or, Nat.testBit_two_pow, hbit]
    · rw [List.set_eq_of_length_le (by omega)]
  · rw [List.getElem?_set_ne hw]

theorem bitset_get_clear_self (b : List Nat) (i : Nat) :
    wsp_ggml_bitset_get (wsp_ggml_bitset_clear b i) i = false := by
  rw [bitset_get_eq_testBit, bitset_clear_eq]
  simp only [List.getD_eq_getElem?_getD]
  by_cases hlen : i / 32 < b.length
  · rw [List.getElem?_set_self hlen]
    have h32 : i % 32 < 32 := Nat.mod_lt _ (by decide)
    simp [Nat.testBit_and, Nat.testBit_xor, testBit_UINT32_MAX, Nat.testBit_two_pow_self, h32]
  · rw [List.set_eq_of_length_le (by omega)]
    have : b[i / 32]? = none := List.getElem?_eq_none (by omega)
    simp [this]

/-! ## Probe arithmetic -/

theorem add_mod_cases (n h e : Nat) (hh : h < n) (he : e < n) :
    (h + e) % n = if h + e < n then h + e else h + e - n := by
  split
  · next hlt => exact Nat.mod_eq_of_lt hlt
  · next hge =>
    rw [Nat.mod_eq_sub_mod (by omega)]
    exact Nat.mod_eq_of_lt (by omega)

theorem probe_lt (hs : wsp_ggml_hash_set) (key d : Nat) (hpos : 0 < hs.size) :
    probe hs key d < hs.size :=
  Nat.mod_lt _ hpos

theorem probe_zero (hs : wsp_ggml_hash_set) (key : Nat) :
    probe hs key 0 = wsp_ggml_hash key % hs.size := by
  unfold probe
  rw [Nat.add_zero, Nat.mod_mod]

theorem probe_inj (hs : wsp_ggml_hash_set) (key d e : Nat) (hd : d < hs.size)
    (he : e < hs.size) (h : probe hs key d = probe hs key e) : d = e := by
  have hpos : 0 < hs.size := by omega
  have hh : wsp_ggml_hash key % hs.size < hs.size := Nat.mod_lt _ hpos
  unfold probe at h
  rw [add_mod_cases _ _ _ hh hd, add_mod_cases _ _ _ hh he] at h
  split at h <;> split at h <;> omega

theorem probe_surj (hs : wsp_ggml_hash_set) (key i : Nat) (hi : i < hs.size) :
    ∃ d, d < hs.size ∧ probe hs key d = i := by
  have hpos : 0 < hs.size := by omega
  have hh : wsp_ggml_hash key % hs.size < hs.size := Nat.mod_lt _ hpos
  by_cases hle : wsp_ggml_hash key % hs.size ≤ i
  · refine ⟨i - wsp_ggml_hash key % hs.size, by omega, ?_⟩
    unfold probe
    rw [add_mod_cases _ _ _ hh (by omega)]
    split <;> omega
  · refine ⟨i + hs.size - wsp_ggml_hash key % hs.size, by omega, ?_⟩
    unfold probe
    rw [add_mod_cases _ _ _ hh (by omega)]
    split <;> omega

theorem probe_succ (hs : wsp_ggml_hash_set) (key d : Nat) (hpos : 0 < hs.size)
    (hlt : hs.size < SIZE_MOD) :
    ((probe hs key d + 1) % SIZE_MOD) % hs.size = probe hs key (d + 1) := by
  have hp := probe_lt hs key d hpos
  have h1 : (probe hs key d + 1) % SIZE_MOD = probe hs key d + 1 :=
    Nat.mod_eq_of_lt (by omega)
  rw [h1]
  unfold probe
  rw [Nat.mod_add_mod, Nat.add_assoc]

theorem probe_succ_eq_start (hs : wsp_ggml_hash_set) (key d : Nat) (hd : d + 1 ≤ hs.size) :
    probe hs key (d + 1) = probe hs key 0 ↔ d + 1 = hs.size := by
  have hpos : 0 < hs.size := by omega
  constructor
  · intro h
    by_contra hne
    have := probe_inj hs key (d + 1) 0 (by omega) hpos h
    omega
  · intro h
    unfold probe
    rw [h, Nat.add_mod_right, Nat.add_zero]

theorem firstFree_unique (hs : wsp_ggml_hash_set) (key d e : Nat)
    (hd : FirstFree hs key d) (he : FirstFree hs key e) : d = e := by
  rcases Nat.lt_trichotomy d e with h | h | h
  · have := he.2.1 d h
    rw [hd.2.2] at this
    cases this
  · exact h
  · have := hd.2.1 e h
    rw [he.2.2] at this
    cases this

theorem allBusy_not_firstFree (hs : wsp_ggml_hash_set) (key e : Nat)
    (ha : AllBusy hs key) (he : FirstFree hs key e) : False := by
  have := ha e he.1
  rw [he.2.2] at this
  cases this

theorem allBusy_iff (hs : wsp_ggml_hash_set) (key : Nat) :
    AllBusy hs key ↔
      ∀ i, i < hs.size → wsp_ggml_bitset_get hs.used i = true ∧ hs.keys.getD i 0 ≠ key := by
  constructor
  · intro ha i hi
    obtain ⟨d, hd, hdi⟩ := probe_surj hs key i hi
    have := ha d hd
    rw [hdi] at this
    simpa [busy] using this
  · intro h j hj
    have := h (probe hs key j) (probe_lt hs key j (by omega))
    simpa [busy] using this

/-! ## The probe loops -/

theorem find_loop_spec (hs : wsp_ggml_hash_set) (key : Nat) (hpos : 0 < hs.size)
    (hlt : hs.size < SIZE_MOD) :
    ∀ budget d, d + budget = hs.size → 0 < budget →
      (∀ j, j < d → busy hs key (probe hs key j) = true) →
      (wsp_ggml_hash_find_loop hs key (probe hs key 0) budget (probe hs key d)
          = Outcome.ret WSP_GGML_HASHSET_FULL ∧ AllBusy hs key) ∨
      ∃ e, FirstFree hs key e ∧
        wsp_ggml_hash_find_loop hs key (probe hs key 0) budget (probe hs key d)
          = Outcome.ret (probe hs key e) := by
  intro budget
  induction budget with
  | zero => intro d _ h0; omega
  | succ b ih =>
    intro d hsum _ hbefore
    by_cases hb : busy hs key (probe hs key d) = true
    · have hb1 : (wsp_ggml_bitset_get hs.used (probe hs key d) &&
          hs.keys.getD (probe hs key d) 0 != key) = true := hb
      by_cases hwrap : d + 1 = hs.size
      · left
        constructor
        · rw [wsp_ggml_hash_find_loop, if_pos hb1]
          simp only [probe_succ hs key d hpos hlt]
          rw [if_pos ((probe_succ_eq_start hs key d (by omega)).2 hwrap)]
        · intro j hj
          by_cases hjd : j < d
          · exact hbefore j hjd
          · have : j = d := by omega
            rw [this]; exact hb
      · have hne : ¬ probe hs key (d + 1) = probe hs key 0 := by
          rw [probe_succ_eq_start hs key d (by omega)]; exact hwrap
        have hstep : wsp_ggml_hash_find_loop hs key (probe hs key 0) (b + 1) (probe hs key d)
            = wsp_ggml_hash_find_loop hs key (probe hs key 0) b (probe hs key (d + 1)) := by
          rw [wsp_ggml_hash_find_loop, if_pos hb1]
          simp only [probe_succ hs key d hpos hlt]
          rw [if_neg hne]
        rw [hstep]
        apply ih (d + 1) (by omega) (by omega)
        intro j hj
        by_cases hjd : j < d
        · exact hbefore j hjd
        · have : j = d := by omega
          rw [this]; exact hb
    · right
      have hb1 : ¬ (wsp_ggml_bitset_get hs.used (probe hs key d) &&
          hs.keys.getD (probe hs key d) 0 != key) = true := hb
      refine ⟨d, ⟨by omega, hbefore, by simpa using hb⟩, ?_⟩
      rw [wsp_ggml_hash_find_loop, if_neg hb1]

theorem insert_loop_spec (hs : wsp_ggml_hash_set) (key : Nat) (hpos : 0 < hs.size)
    (hlt : hs.size < SIZE_MOD) :
    ∀ budget d, d + budget = hs.size → 0 < budget →
      (∀ j, j < d → busy hs key (probe hs key j) = true) →
      (wsp_ggml_hash_insert_loop hs key (probe hs key 0) budget (probe hs key d)
          = Outcome.abort ∧ AllBusy hs key) ∨
      ∃ e, FirstFree hs key e ∧
        wsp_ggml_hash_insert_loop hs key (probe hs key 0) budget (probe hs key d)
          = if wsp_ggml_bitset_get hs.used (probe hs key e) = true
            then Outcome.ret (WSP_GGML_HASHSET_ALREADY_EXISTS, hs)
            else Outcome.ret (probe hs key e, store hs (probe hs key e) key) := by
  intro budget
  induction budget with
  | zero => intro d _ h0; omega
  | succ b ih =>
    intro d hsum _ hbefore
    by_cases hb : busy hs key (probe hs key d) = true
    · have hb1 := hb
      simp only [busy, Bool.and_eq_true, bne_iff_ne, ne_eq] at hb1
      have hused : (!wsp_ggml_bitset_get hs.used (probe hs key d)) = false := by simp [hb1.1]
      have hkey : (hs.keys.getD (probe hs key d) 0 == key) = false := by simpa using hb1.2
      have hall : ∀ j, j < d + 1 → busy hs key (probe hs key j) = true := by
        intro j hj
        by_cases hjd : j < d
        · exact hbefore j hjd
        · have : j = d := by omega
          rw [this]; exact hb
      by_cases hwrap : d + 1 = hs.size
      · left
        constructor
        · rw [wsp_ggml_hash_insert_loop]
          simp only [hused, hkey, probe_succ hs key d hpos hlt,
            (probe_succ_eq_start hs key d (by omega)).2 hwrap]
          simp
        · intro j hj
          exact hall j (by omega)
      · have hne : ¬ probe hs key (d + 1) = probe hs key 0 := by
          rw [probe_succ_eq_start hs key d (by omega)]; exact hwrap
        have hstep : wsp_ggml_hash_insert_loop hs key (probe hs key 0) (b + 1) (probe hs key d)
            = wsp_ggml_hash_insert_loop hs key (probe hs key 0) b (probe hs key (d + 1)) := by
          rw [wsp_ggml_hash_insert_loop]
          simp only [hused, hkey, probe_succ hs key d hpos hlt]
          simp [hne]
        rw [hstep]
        exact ih (d + 1) (by omega) (by omega) hall
    · right
      refine ⟨d, ⟨by omega, hbefore, by simpa using hb⟩, ?_⟩
      rw [wsp_ggml_hash_insert_loop]
      by_cases hu : wsp_ggml_bitset_get hs.used (probe hs key d) = true
      · have hk : hs.keys.getD (probe hs key d) 0 = key := by
          simp only [busy, hu, Bool.true_and, bne_iff_ne, ne_eq, Decidable.not_not] at hb
          exact hb
        have hk1 : (hs.keys.getD (probe hs key d) 0 == key) = true := by
          rw [hk]; exact beq_self_eq_true key
        rw [if_neg (by simp [hu]), if_pos hk1, if_pos hu]
      · simp only [Bool.not_eq_true] at hu
        simp [hu, store]

theorem find_or_insert_loop_spec (hs : wsp_ggml_hash_set) (key : Nat) (hpos : 0 < hs.size)
    (hlt : hs.size < SIZE_MOD) :
    ∀ budget d, d + budget = hs.size → 0 < budget →
      (∀ j, j < d → busy hs key (probe hs key j) = true) →
      (wsp_ggml_hash_find_or_insert_loop hs key (probe hs key 0) budget (probe hs key d)
          = Outcome.abort ∧ AllBusy hs key) ∨
      ∃ e, FirstFree hs key e ∧
        wsp_ggml_hash_find_or_insert_loop hs key (probe hs key 0) budget (probe hs key d)
          = if wsp_ggml_bitset_get hs.used (probe hs key e) = true
            then Outcome.ret (probe hs key e, hs)
            else Outcome.ret (probe hs key e, store hs (probe hs key e) key) := by
  intro budget
  induction budget with
  | zero => intro d _ h0; omega
  | succ b ih =>
    intro d hsum _ hbefore
    by_cases hb : busy hs key (probe hs key d) = true
    · have hb1 := hb
      simp only [busy, Bool.and_eq_true, bne_iff_ne, ne_eq] at hb1
      have hused : (!wsp_ggml_bitset_get hs.used (probe hs key d)) = false := by simp [hb1.1]
      have hkey : (hs.keys.getD (probe hs key d) 0 == key) = false := by simpa using hb1.2
      have hall : ∀ j, j < d + 1 → busy hs key (probe hs key j) = true := by
        intro j hj
        by_cases hjd : j < d
        · exact hbefore j hjd
        · have : j = d := by omega
          rw [this]; exact hb
      by_cases hwrap : d + 1 = hs.size
      · left
        constructor
        · rw [wsp_ggml_hash_find_or_insert_loop]
          simp only [hused, hkey, probe_succ hs key d hpos hlt,
            (probe_succ_eq_start hs key d (by omega)).2 hwrap]
          simp
        · intro j hj
          exact hall j (by omega)
      · have hne : ¬ probe hs key (d + 1) = probe hs key 0 := by
          rw [probe_succ_eq_start hs key d (by omega)]; exact hwrap
        have hstep :
            wsp_ggml_hash_find_or_insert_loop hs key (probe hs key 0) (b + 1) (probe hs key d)
            = wsp_ggml_hash_find_or_insert_loop hs key (probe hs key 0) b
                (probe hs key (d + 1)) := by
          rw [wsp_ggml_hash_find_or_insert_loop]
          simp only [hused, hkey, probe_succ hs key d hpos hlt]
          simp [hne]
        rw [hstep]
        exact ih (d + 1) (by omega) (by omega) hall
    · right
      refine ⟨d, ⟨by omega, hbefore, by simpa using hb⟩, ?_⟩
      rw [wsp_ggml_hash_find_or_insert_loop]
      by_cases hu : wsp_ggml_bitset_get hs.used (probe hs key d) = true
      · have hk : hs.keys.getD (probe hs key d) 0 = key := by
          simp only [busy, hu, Bool.true_and, bne_iff_ne, ne_eq, Decidable.not_not] at hb
          exact hb
        have hk1 : (hs.keys.getD (probe hs key d) 0 == key) = true := by
          rw [hk]; exact beq_self_eq_true key
        rw [if_neg (by simp [hu]), if_pos hk1, if_pos hu]
      · simp only [Bool.not_eq_true] at hu
        simp [hu, store]

/-! ## The operations in terms of the probe path -/

theorem find_spec (hs : wsp_ggml_hash_set) (key : Nat) (hpos : 0 < hs.size)
    (hlt : hs.size < SIZE_MOD) :
    (wsp_ggml_hash_find hs key = Outcome.ret WSP_GGML_HASHSET_FULL ∧ AllBusy hs key) ∨
    ∃ e, FirstFree hs key e ∧ wsp_ggml_hash_find hs key = Outcome.ret (probe hs key e) := by
  have h := find_loop_spec hs key hpos hlt hs.size 0 (by omega) hpos (fun j hj => by omega)
  have e : wsp_ggml_hash_find hs key
      = wsp_ggml_hash_find_loop hs key (probe hs key 0) hs.size (probe hs key 0) := by
    unfold wsp_ggml_hash_find
    rw [if_neg (by omega), probe_zero]
  rw [e]; exact h

theorem insert_spec (hs : wsp_ggml_hash_set) (key : Nat) (hpos : 0 < hs.size)
    (hlt : hs.size < SIZE_MOD) :
    (wsp_ggml_hash_insert hs key = Outcome.abort ∧ AllBusy hs key) ∨
    ∃ e, FirstFree hs key e ∧ wsp_ggml_hash_insert hs key
      = if wsp_ggml_bitset_get hs.used (probe hs key e) = true
        then Outcome.ret (WSP_GGML_HASHSET_ALREADY_EXISTS, hs)
        else Outcome.ret (probe hs key e, store hs (probe hs key e) key) := by
  have h := insert_loop_spec hs key hpos hlt hs.size 0 (by omega) hpos (fun j hj => by omega)
  have e : wsp_ggml_hash_insert hs key
      = wsp_ggml_hash_insert_loop hs key (probe hs key 0) hs.size (probe hs key 0) := by
    unfold wsp_ggml_hash_insert
    rw [if_neg (by omega), probe_zero]
  rw [e]; exact h

theorem find_or_insert_spec (hs : wsp_ggml_hash_set) (key : Nat) (hpos : 0 < hs.size)
    (hlt : hs.size < SIZE_MOD) :
    (wsp_ggml_hash_find_or_insert hs key = Outcome.abort ∧ AllBusy hs key) ∨
    ∃ e, FirstFree hs key e ∧ wsp_ggml_hash_find_or_insert hs key
      = if wsp_ggml_bitset_get hs.used (probe hs key e) = true
        then Outcome.ret (probe hs key e, hs)
        else Outcome.ret (probe hs key e, store hs (probe hs key e) key) := by
  have h := find_or_insert_loop_spec hs key hpos hlt hs.size 0 (by omega) hpos
    (fun j hj => by omega)
  have e : wsp_ggml_hash_find_or_insert hs key
      = wsp_ggml_hash_find_or_insert_loop hs key (probe hs key 0) hs.size (probe hs key 0) := by
    unfold wsp_ggml_hash_find_or_insert
    rw [if_neg (by omega), probe_zero]
  rw [e]; exact h

theorem probe_ne_full (hs : wsp_ggml_hash_set) (key e : Nat) (hpos : 0 < hs.size)
    (hlt : hs.size < SIZE_MOD) : probe hs key e ≠ WSP_GGML_HASHSET_FULL := by
  have := probe_lt hs key e hpos
  have hf : WSP_GGML_HASHSET_FULL = SIZE_MOD - 1 := rfl
  omega

/-- What `find` returning a slot means: the slot is the first non-busy one of the path. -/
theorem find_ret_firstFree (hs : wsp_ggml_hash_set) (key r : Nat) (hpos : 0 < hs.size)
    (hlt : hs.size < SIZE_MOD) (hf : wsp_ggml_hash_find hs key = Outcome.ret r)
    (hr : r ≠ WSP_GGML_HASHSET_FULL) : ∃ e, FirstFree hs key e ∧ probe hs key e = r := by
  rcases find_spec hs key hpos hlt with ⟨h1, _⟩ | ⟨e, he, h1⟩
  · rw [h1] at hf
    injection hf with hf
    exact absurd hf.symm hr
  · rw [h1] at hf
    injection hf with hf
    exact ⟨e, he, hf⟩

theorem find_full_allBusy (hs : wsp_ggml_hash_set) (key : Nat) (hpos : 0 < hs.size)
    (hlt : hs.size < SIZE_MOD)
    (hf : wsp_ggml_hash_find hs key = Outcome.ret WSP_GGML_HASHSET_FULL) : AllBusy hs key := by
  rcases find_spec hs key hpos hlt with ⟨_, h2⟩ | ⟨e, _, h1⟩
  · exact h2
  · rw [h1] at hf
    injection hf with hf
    exact absurd hf (probe_ne_full hs key e hpos hlt)

/-! ## The state written by an insertion -/

theorem store_used_self (hs : wsp_ggml_hash_set) (i key : Nat) (hi : i < hs.size)
    (hu : hs.size ≤ 32 * hs.used.length) :
    wsp_ggml_bitset_get (store hs i key).used i = true :=
  bitset_get_set_self hs.used i (by omega)

theorem store_used_other (hs : wsp_ggml_hash_set) (i key j : Nat) (hj : j ≠ i) :
    wsp_ggml_bitset_get (store hs i key).used j = wsp_ggml_bitset_get hs.used j :=
  bitset_get_set_other hs.used i j hj

theorem store_keys_self (hs : wsp_ggml_hash_set) (i key : Nat) (hi : i < hs.keys.length) :
    (store hs i key).keys.getD i 0 = key := by
  simp [store, List.getD_eq_getElem?_getD, List.getElem?_set_self hi]

theorem store_keys_other (hs : wsp_ggml_hash_set) (i key j : Nat) (hj : j ≠ i) :
    (store hs i key).keys.getD j 0 = hs.keys.getD j 0 := by
  simp [store, List.getD_eq_getElem?_getD, List.getElem?_set_ne (Ne.symm hj)]

theorem store_busy_other (hs : wsp_ggml_hash_set) (i key k j : Nat) (hj : j ≠ i) :
    busy (store hs i key) k j = busy hs k j := by
  unfold busy
  rw [store_used_other hs i key j hj, store_keys_other hs i key j hj]

theorem store_probe (hs : wsp_ggml_hash_set) (i key k d : Nat) :
    probe (store hs i key) k d = probe hs k d := rfl

theorem store_wellFormed (hs : wsp_ggml_hash_set) (i key : Nat) (hw : WellFormed hs) :
    WellFormed (store hs i key) := by
  obtain ⟨h1, h2, h3, h4⟩ := hw
  refine ⟨h1, h2, ?_, ?_⟩
  · simpa [store] using h3
  · simpa [store, bitset_set_length] using h4

/-- After storing `key` at the first non-busy slot of its path, that slot is still the
first non-busy one, now occupied by `key`. -/
theorem store_firstFree (hs : wsp_ggml_hash_set) (key e : Nat) (he : FirstFree hs key e)
    (hk : hs.keys.length = hs.size) :
    FirstFree (store hs (probe hs key e) key) key e := by
  obtain ⟨h1, h2, _⟩ := he
  refine ⟨h1, ?_, ?_⟩
  · intro j hj
    rw [store_probe, store_busy_other]
    · exact h2 j hj
    · intro h
      have := probe_inj hs key j e (by omega) h1 h
      omega
  · rw [store_probe]
    unfold busy
    rw [store_keys_self hs _ key (by rw [hk]; exact probe_lt hs key e (by omega))]
    simp

theorem firstFree_not_busy (hs : wsp_ggml_hash_set) (key e : Nat) (he : FirstFree hs key e) :
    wsp_ggml_bitset_get hs.used (probe hs key e) = false ∨
    (wsp_ggml_bitset_get hs.used (probe hs key e) = true ∧
      hs.keys.getD (probe hs key e) 0 = key) := by
  have h := he.2.2
  unfold busy at h
  cases hu : wsp_ggml_bitset_get hs.used (probe hs key e)
  · exact Or.inl rfl
  · right
    rw [hu] at h
    simpa using h

/-! ## States reached from an empty set -/

theorem inv_empty (hs : wsp_ggml_hash_set) (hw : WellFormed hs)
    (hempty : ∀ i, i < hs.size → wsp_ggml_bitset_get hs.used i = false) : Inv hs ∅ := by
  refine ⟨hw, ?_, ?_, ?_⟩
  · intro i hi hu
    rw [hempty i hi] at hu; cases hu
  · intro i hi hu
    rw [hempty i hi] at hu; cases hu
  · intro x hx
    simp at hx

theorem inv_store (hs : wsp_ggml_hash_set) (S : Finset Nat) (key e : Nat) (hinv : Inv hs S)
    (he : FirstFree hs key e) (hu : wsp_ggml_bitset_get hs.used (probe hs key e) = false) :
    Inv (store hs (probe hs key e) key) (insert key S) := by
  obtain ⟨hw, hchain, hsub, hsup⟩ := hinv
  have hpos : 0 < hs.size := hw.1
  have hk : hs.keys.length = hs.size := hw.2.2.1
  have hrlt : probe hs key e < hs.size := probe_lt hs key e hpos
  refine ⟨store_wellFormed hs _ key hw, ?_, ?_, ?_⟩
  · intro i hi hui
    by_cases hir : i = probe hs key e
    · refine ⟨e, ?_, ?_⟩
      · rw [hir, store_keys_self hs _ key (by omega)]
        exact store_firstFree hs key e he hk
      · rw [hir, store_keys_self hs _ key (by omega)]
        rfl
    · rw [store_used_other hs _ key i hir] at hui
      rw [store_keys_other hs _ key i hir]
      obtain ⟨d, hd, hdi⟩ := hchain i hi hui
      refine ⟨d, ⟨hd.1, ?_, ?_⟩, by rw [store_probe]; exact hdi⟩
      · intro j hj
        have hb := hd.2.1 j hj
        rw [store_probe, store_busy_other]
        · exact hb
        · intro h
          rw [h] at hb
          simp [busy, hu] at hb
      · have hfree := hd.2.2
        rw [hdi] at hfree
        rw [store_probe, hdi, store_busy_other hs _ key _ i hir]
        exact hfree
  · intro i hi hui
    by_cases hir : i = probe hs key e
    · rw [hir, store_keys_self hs _ key (by omega)]
      exact Finset.mem_insert_self key S
    · rw [store_used_other hs _ key i hir] at hui
      rw [store_keys_other hs _ key i hir]
      exact Finset.mem_insert_of_mem (hsub i hi hui)
  · intro x hx
    rcases Finset.mem_insert.1 hx with hxk | hxS
    · exact ⟨probe hs key e, hrlt, store_used_self hs _ key hrlt hw.2.2.2,
        by rw [hxk]; exact store_keys_self hs _ key (by omega)⟩
    · obtain ⟨i, hi, hui, hki⟩ := hsup x hxS
      have hir : i ≠ probe hs key e := by
        intro h
        rw [h, hu] at hui; cases hui
      exact ⟨i, hi, by rw [store_used_other hs _ key i hir]; exact hui,
        by rw [store_keys_other hs _ key i hir]; exact hki⟩

theorem inv_present (hs : wsp_ggml_hash_set) (S : Finset Nat) (key e : Nat) (hinv : Inv hs S)
    (he : FirstFree hs key e) (hu : wsp_ggml_bitset_get hs.used (probe hs key e) = true) :
    Inv hs (insert key S) := by
  obtain ⟨hw, hchain, hsub, hsup⟩ := hinv
  have hkey : hs.keys.getD (probe hs key e) 0 = key := by
    rcases firstFree_not_busy hs key e he with h | h
    · rw [hu] at h; cases h
    · exact h.2
  refine ⟨hw, hchain, fun i hi hui => Finset.mem_insert_of_mem (hsub i hi hui), ?_⟩
  intro x hx
  rcases Finset.mem_insert.1 hx with hxk | hxS
  · exact ⟨probe hs key e, probe_lt hs key e hw.1, hu, by rw [hxk]; exact hkey⟩
  · exact hsup x hxS

/-- Two occupied slots of a state with the probe-chain property hold different keys. -/
theorem chain_keys_injective (hs : wsp_ggml_hash_set) (hc : Chain hs) (i j : Nat)
    (hi : i < hs.size) (hj : j < hs.size) (hui : wsp_ggml_bitset_get hs.used i = true)
    (huj : wsp_ggml_bitset_get hs.used j = true)
    (hij : hs.keys.getD i 0 = hs.keys.getD j 0) : i = j := by
  obtain ⟨d, hd, hdi⟩ := hc i hi hui
  obtain ⟨d1, hd1, hdj⟩ := hc j hj huj
  rw [← hij] at hd1 hdj
  have := firstFree_unique hs _ d d1 hd hd1
  rw [← hdi, ← hdj, this]

/-- A probe that wraps completely meets `size` different keys, all other than `key`. -/
theorem inv_allBusy_card (hs : wsp_ggml_hash_set) (S : Finset Nat) (key : Nat)
    (hinv : Inv hs S) (ha : AllBusy hs key) : hs.size + 1 ≤ (insert key S).card := by
  obtain ⟨hw, hchain, hsub, _⟩ := hinv
  have hall := (allBusy_iff hs key).1 ha
  have hmaps : ∀ i ∈ Finset.range hs.size, hs.keys.getD i 0 ∈ S.erase key := by
    intro i hi
    have hi1 : i < hs.size := Finset.mem_range.1 hi
    exact Finset.mem_erase.2 ⟨(hall i hi1).2, hsub i hi1 (hall i hi1).1⟩
  have hinj : Set.InjOn (fun i => hs.keys.getD i 0) (Finset.range hs.size : Set Nat) := by
    intro i hi j hj hij
    have hi1 : i < hs.size := Finset.mem_range.1 hi
    have hj1 : j < hs.size := Finset.mem_range.1 hj
    exact chain_keys_injective hs hchain i j hi1 hj1 (hall i hi1).1 (hall j hj1).1 hij
  have hle := Finset.card_le_card_of_injOn (fun i => hs.keys.getD i 0) hmaps hinj
  rw [Finset.card_range] at hle
  have h1 : ((insert key S).erase key).card + 1 = (insert key S).card :=
    Finset.card_erase_add_one (Finset.mem_insert_self key S)
  rw [Finset.erase_insert_eq_erase] at h1
  omega

theorem op_step (hs : wsp_ggml_hash_set) (S : Finset Nat) (op : hash_op) (hinv : Inv hs S)
    (hcard : (insert op.key S).card ≤ hs.size) :
    ∃ v hs1, op.run hs = Outcome.ret (v, hs1) ∧
      (v < hs.size ∨ v = WSP_GGML_HASHSET_ALREADY_EXISTS) ∧ hs1.size = hs.size ∧
      Inv hs1 (insert op.key S) := by
  have hw := hinv.1
  cases op with
  | insert key =>
    rcases insert_spec hs key hw.1 hw.2.1 with ⟨_, ha⟩ | ⟨e, he, h1⟩
    · have := inv_allBusy_card hs S key hinv ha
      simp only [hash_op.key] at hcard
      omega
    · by_cases hu : wsp_ggml_bitset_get hs.used (probe hs key e) = true
      · rw [if_pos hu] at h1
        exact ⟨_, _, h1, Or.inr rfl, rfl, inv_present hs S key e hinv he hu⟩
      · rw [if_neg hu] at h1
        exact ⟨_, _, h1, Or.inl (probe_lt hs key e hw.1), rfl,
          inv_store hs S key e hinv he (by simpa using hu)⟩
  | find_or_insert key =>
    rcases find_or_insert_spec hs key hw.1 hw.2.1 with ⟨_, ha⟩ | ⟨e, he, h1⟩
    · have := inv_allBusy_card hs S key hinv ha
      simp only [hash_op.key] at hcard
      omega
    · by_cases hu : wsp_ggml_bitset_get hs.used (probe hs key e) = true
      · rw [if_pos hu] at h1
        exact ⟨_, _, h1, Or.inl (probe_lt hs key e hw.1), rfl,
          inv_present hs S key e hinv he hu⟩
      · rw [if_neg hu] at h1
        exact ⟨_, _, h1, Or.inl (probe_lt hs key e hw.1), rfl,
          inv_store hs S key e hinv he (by simpa using hu)⟩

theorem run_ops_ok (ops : List hash_op) :
    ∀ (hs : wsp_ggml_hash_set) (S : Finset Nat), Inv hs S →
      (S ∪ (ops.map hash_op.key).toFinset).card ≤ hs.size →
      ∃ rs hs1, run_ops hs ops = Outcome.ret (rs, hs1) ∧ rs.length = ops.length ∧
        (∀ r, r ∈ rs → r < hs.size ∨ r = WSP_GGML_HASHSET_ALREADY_EXISTS) ∧
        hs1.size = hs.size ∧ Inv hs1 (S ∪ (ops.map hash_op.key).toFinset) := by
  induction ops with
  | nil =>
    intro hs S hinv _
    refine ⟨[], hs, rfl, rfl, fun r hr => absurd hr (List.not_mem_nil r), rfl, ?_⟩
    simpa using hinv
  | cons op ops ih =>
    intro hs S hinv hcard
    have hset : S ∪ ((op :: ops).map hash_op.key).toFinset
        = insert op.key S ∪ (ops.map hash_op.key).toFinset := by
      ext x
      simp only [List.map_cons, List.toFinset_cons, Finset.mem_union, Finset.mem_insert]
      tauto
    rw [hset] at hcard ⊢
    have hc1 : (insert op.key S).card ≤ hs.size :=
      le_trans (Finset.card_le_card Finset.subset_union_left) hcard
    obtain ⟨v, hs1, hrun, hv, hsz, hinv1⟩ := op_step hs S op hinv hc1
    obtain ⟨rs, hs2, hrun2, hlen, hrs, hsz2, hinv2⟩ := ih hs1 (insert op.key S) hinv1
      (by rw [hsz]; exact hcard)
    refine ⟨v :: rs, hs2, ?_, by simp [hlen], ?_, by rw [hsz2, hsz], hinv2⟩
    · simp only [run_ops, hrun, hrun2]
    · intro r hr
      rcases List.mem_cons.1 hr with h | h
      · rw [h]; exact hv
      · have := hrs r h
        rw [hsz] at this; exact this

theorem inv_find (hs : wsp_ggml_hash_set) (S : Finset Nat) (x : Nat) (hinv : Inv hs S)
    (hx : x ∈ S) :
    ∃ i, i < hs.size ∧ wsp_ggml_hash_find hs x = Outcome.ret i ∧
      wsp_ggml_bitset_get hs.used i = true ∧ hs.keys.getD i 0 = x := by
  obtain ⟨hw, hchain, _, hsup⟩ := hinv
  obtain ⟨i, hi, hui, hki⟩ := hsup x hx
  obtain ⟨d, hd, hdi⟩ := hchain i hi hui
  rw [hki] at hd hdi
  rcases find_spec hs x hw.1 hw.2.1 with ⟨_, ha⟩ | ⟨e, he, h1⟩
  · exact absurd hd (fun h => allBusy_not_firstFree hs x d ha h)
  · have hee : e = d := firstFree_unique hs x e d he hd
    rw [hee, hdi] at h1
    exact ⟨i, hi, h1, hui, hki⟩

theorem inv_contains (hs : wsp_ggml_hash_set) (S : Finset Nat) (x : Nat) (hinv : Inv hs S) :
    wsp_ggml_hash_contains hs x = Outcome.ret (decide (x ∈ S)) := by
  have hw := hinv.1
  unfold wsp_ggml_hash_contains
  rcases find_spec hs x hw.1 hw.2.1 with ⟨h1, ha⟩ | ⟨e, he, h1⟩
  · rw [h1]
    have hx : x ∉ S := by
      intro hx
      obtain ⟨i, hi, hui, hki⟩ := hinv.2.2.2 x hx
      exact ((allBusy_iff hs x).1 ha i hi).2 hki
    simp [hx]
  · rw [h1]
    have hne := probe_ne_full hs x e hw.1 hw.2.1
    rcases firstFree_not_busy hs x e he with h | h
    · have hx : x ∉ S := by
        intro hx
        obtain ⟨i, hi, h2, hui, _⟩ := inv_find hs S x hinv hx
        rw [h1] at h2
        injection h2 with h2
        rw [← h2, h] at hui; cases hui
      simp [h, hx]
    · have hx : x ∈ S := by
        have := hinv.2.2.1 _ (probe_lt hs x e hw.1) h.1
        rw [h.2] at this; exact this
      simp [h.1, hx, hne]

/-! ## Claims on the probe operations -/

/-- C1. Contract of `wsp_ggml_hash_find` on a set with `size > 0`: it returns; a result
`r` other than `WSP_GGML_HASHSET_FULL` is a slot `r < size` at some offset `d` of the
probe path that starts at `h = wsp_ggml_hash(key) % size`, every slot at an earlier
offset is occupied by a key different from `key`, and slot `r` is unoccupied or holds
`key`; the result `WSP_GGML_HASHSET_FULL` is returned only when every slot is occupied
and none holds `key`. -/
theorem hash_find_contract (hs : wsp_ggml_hash_set) (key : Nat) (hpos : 0 < hs.size)
    (hlt : hs.size < SIZE_MOD) :
    ∃ r, wsp_ggml_hash_find hs key = Outcome.ret r ∧
      (r ≠ WSP_GGML_HASHSET_FULL →
        r < hs.size ∧
        ∃ d, d < hs.size ∧ r = (wsp_ggml_hash key % hs.size + d) % hs.size ∧
          (∀ j, j < d →
            wsp_ggml_bitset_get hs.used ((wsp_ggml_hash key % hs.size + j) % hs.size) = true ∧
            hs.keys.getD ((wsp_ggml_hash key % hs.size + j) % hs.size) 0 ≠ key) ∧
          (wsp_ggml_bitset_get hs.used r = false ∨
            (wsp_ggml_bitset_get hs.used r = true ∧ hs.keys.getD r 0 = key))) ∧
      (r = WSP_GGML_HASHSET_FULL →
        ∀ i, i < hs.size →
          wsp_ggml_bitset_get hs.used i = true ∧ hs.keys.getD i 0 ≠ key) := by
  rcases find_spec hs key hpos hlt with ⟨h1, h2⟩ | ⟨e, he, h1⟩
  · refine ⟨_, h1, fun h => absurd rfl h, fun _ => (allBusy_iff hs key).1 h2⟩
  · refine ⟨_, h1, fun _ => ⟨probe_lt hs key e hpos, e, he.1, rfl, ?_, firstFree_not_busy hs key e he⟩,
      fun h => absurd h (probe_ne_full hs key e hpos hlt)⟩
    intro j hj
    have := he.2.1 j hj
    simpa [busy, probe] using this

theorem hash_find_contract_witness :
    (0 < sample_set.size ∧ sample_set.size < SIZE_MOD) ∧
    ∃ r, wsp_ggml_hash_find sample_set 64 = Outcome.ret r ∧
      (r ≠ WSP_GGML_HASHSET_FULL →
        r < sample_set.size ∧
        ∃ d, d < sample_set.size ∧ r = (wsp_ggml_hash 64 % sample_set.size + d) % sample_set.size ∧
          (∀ j, j < d →
            wsp_ggml_bitset_get sample_set.used
              ((wsp_ggml_hash 64 % sample_set.size + j) % sample_set.size) = true ∧
            sample_set.keys.getD ((wsp_ggml_hash 64 % sample_set.size + j) % sample_set.size) 0
              ≠ 64) ∧
          (wsp_ggml_bitset_get sample_set.used r = false ∨
            (wsp_ggml_bitset_get sample_set.used r = true ∧ sample_set.keys.getD r 0 = 64))) ∧
      (r = WSP_GGML_HASHSET_FULL →
        ∀ i, i < sample_set.size →
          wsp_ggml_bitset_get sample_set.used i = true ∧ sample_set.keys.getD i 0 ≠ 64) :=
  ⟨by decide, hash_find_contract sample_set 64 (by decide) (by decide)⟩


/-- C2, refuted as stated: the set of capacity 0 is empty and its capacity is at least
the number of distinct keys of the empty sequence, yet `wsp_ggml_hash_contains` does not
answer false on it: `wsp_ggml_hash_find` takes a remainder by `size = 0`. -/
theorem contains_on_null_set :
    (∀ i, i < null_set.size → wsp_ggml_bitset_get null_set.used i = false) ∧
    ([] : List Nat).dedup.length ≤ null_set.size ∧
    run_ops null_set (([] : List Nat).map hash_op.insert) = Outcome.ret ([], null_set) ∧
    wsp_ggml_hash_contains null_set 16 = Outcome.undef ∧
    wsp_ggml_hash_contains null_set 16 ≠ Outcome.ret (decide (16 ∈ ([] : List Nat))) := by
  decide

/-- C2, amended: for every sequence of keys inserted one by one with
`wsp_ggml_hash_insert` into an initially empty, well-formed hash set with `size > 0`
whose capacity is at least the number of distinct keys of the sequence, every insertion
returns; afterwards `wsp_ggml_hash_contains(x)` is true exactly for the keys `x` of the
sequence, and for each of them `wsp_ggml_hash_find(x)` returns an index `i < size` with
used bit `i` set and `keys[i] = x`. -/
theorem insert_all_then_contains (hs : wsp_ggml_hash_set) (seq : List Nat)
    (hw : WellFormed hs)
    (hempty : ∀ i, i < hs.size → wsp_ggml_bitset_get hs.used i = false)
    (hcap : seq.dedup.length ≤ hs.size) :
    ∃ rs hs1, run_ops hs (seq.map hash_op.insert) = Outcome.ret (rs, hs1) ∧
      hs1.size = hs.size ∧
      (∀ x, wsp_ggml_hash_contains hs1 x = Outcome.ret (decide (x ∈ seq))) ∧
      (∀ x, x ∈ seq → ∃ i, i < hs1.size ∧ wsp_ggml_hash_find hs1 x = Outcome.ret i ∧
        wsp_ggml_bitset_get hs1.used i = true ∧ hs1.keys.getD i 0 = x) := by
  have hkeys : (seq.map hash_op.insert).map hash_op.key = seq := by
    rw [List.map_map]
    exact List.map_id seq
  have hcard : (∅ ∪ ((seq.map hash_op.insert).map hash_op.key).toFinset).card ≤ hs.size := by
    rw [hkeys, Finset.empty_union, List.card_toFinset]
    exact hcap
  obtain ⟨rs, hs1, hrun, _, _, hsz, hinv⟩ :=
    run_ops_ok (seq.map hash_op.insert) hs ∅ (inv_empty hs hw hempty) hcard
  rw [hkeys, Finset.empty_union] at hinv
  refine ⟨rs, hs1, hrun, hsz, ?_, ?_⟩
  · intro x
    rw [inv_contains hs1 _ x hinv]
    simp
  · intro x hx
    exact inv_find hs1 _ x hinv (List.mem_toFinset.2 hx)

theorem insert_all_then_contains_witness :
    (WellFormed empty_set ∧
      (∀ i, i < empty_set.size → wsp_ggml_bitset_get empty_set.used i = false) ∧
      [16, 80, 16].dedup.length ≤ empty_set.size) ∧
    ∃ rs hs1, run_ops empty_set ([16, 80, 16].map hash_op.insert) = Outcome.ret (rs, hs1) ∧
      hs1.size = empty_set.size ∧
      (∀ x, wsp_ggml_hash_contains hs1 x = Outcome.ret (decide (x ∈ [16, 80, 16]))) ∧
      (∀ x, x ∈ [16, 80, 16] → ∃ i, i < hs1.size ∧ wsp_ggml_hash_find hs1 x = Outcome.ret i ∧
        wsp_ggml_bitset_get hs1.used i = true ∧ hs1.keys.getD i 0 = x) :=
  ⟨⟨⟨by decide, by decide, by decide, by decide⟩, by decide, by decide⟩,
    insert_all_then_contains empty_set [16, 80, 16] ⟨by decide, by decide, by decide, by decide⟩
      (by decide) (by decide)⟩

/-- C3. For every `k ≥ 1`, every well-formed hash set of capacity `size ≥ k` that starts
empty, and every sequence of `wsp_ggml_hash_insert` / `wsp_ggml_hash_find_or_insert`
calls whose keys take at most `k` distinct values, no call reaches the fatal abort:
every call returns, and returns a slot index `< size` or
`WSP_GGML_HASHSET_ALREADY_EXISTS`. -/
theorem calls_within_capacity_return (k : Nat) (hs : wsp_ggml_hash_set) (ops : List hash_op)
    (hk : 1 ≤ k) (hcap : k ≤ hs.size) (hlt : hs.size < SIZE_MOD)
    (hkeys : hs.keys.length = hs.size) (hused : hs.size ≤ 32 * hs.used.length)
    (hempty : ∀ i, i < hs.size → wsp_ggml_bitset_get hs.used i = false)
    (hdist : (ops.map hash_op.key).dedup.length ≤ k) :
    ∃ rs hs1, run_ops hs ops = Outcome.ret (rs, hs1) ∧ rs.length = ops.length ∧
      ∀ r, r ∈ rs → r < hs.size ∨ r = WSP_GGML_HASHSET_ALREADY_EXISTS := by
  have hw : WellFormed hs := ⟨by omega, hlt, hkeys, hused⟩
  have hcard : (∅ ∪ (ops.map hash_op.key).toFinset).card ≤ hs.size := by
    rw [Finset.empty_union, List.card_toFinset]
    omega
  obtain ⟨rs, hs1, hrun, hlen, hrs, _, _⟩ :=
    run_ops_ok ops hs ∅ (inv_empty hs hw hempty) hcard
  exact ⟨rs, hs1, hrun, hlen, hrs⟩

theorem calls_within_capacity_return_witness :
    (1 ≤ 2 ∧ 2 ≤ empty_set.size ∧ empty_set.size < SIZE_MOD ∧
      empty_set.keys.length = empty_set.size ∧ empty_set.size ≤ 32 * empty_set.used.length ∧
      (∀ i, i < empty_set.size → wsp_ggml_bitset_get empty_set.used i = false) ∧
      ([hash_op.insert 16, hash_op.find_or_insert 80, hash_op.insert 16,
          hash_op.find_or_insert 16].map hash_op.key).dedup.length ≤ 2) ∧
    ∃ rs hs1, run_ops empty_set [hash_op.insert 16, hash_op.find_or_insert 80,
          hash_op.insert 16, hash_op.find_or_insert 16] = Outcome.ret (rs, hs1) ∧
      rs.length = [hash_op.insert 16, hash_op.find_or_insert 80, hash_op.insert 16,
          hash_op.find_or_insert 16].length ∧
      ∀ r, r ∈ rs → r < empty_set.size ∨ r = WSP_GGML_HASHSET_ALREADY_EXISTS :=
  ⟨by decide, calls_within_capacity_return 2 empty_set
    [hash_op.insert 16, hash_op.find_or_insert 80, hash_op.insert 16, hash_op.find_or_insert 16]
    (by decide) (by decide) (by decide) (by decide) (by decide) (by decide) (by decide)⟩

/-- C4. On a well-formed set, when `wsp_ggml_hash_find(key)` returns an unoccupied slot
`r`, `wsp_ggml_hash_insert(key)` returns exactly `r`; afterwards the used bit of `r` is
set and `keys[r] = key`, while `size` and the occupancy bit and key of every other slot
are unchanged. -/
theorem hash_insert_unoccupied (hs : wsp_ggml_hash_set) (key r : Nat) (hw : WellFormed hs)
    (hf : wsp_ggml_hash_find hs key = Outcome.ret r) (hr : r < hs.size)
    (hu : wsp_ggml_bitset_get hs.used r = false) :
    ∃ hs1, wsp_ggml_hash_insert hs key = Outcome.ret (r, hs1) ∧
      wsp_ggml_bitset_get hs1.used r = true ∧ hs1.keys.getD r 0 = key ∧
      hs1.size = hs.size ∧
      ∀ j, j ≠ r →
        wsp_ggml_bitset_get hs1.used j = wsp_ggml_bitset_get hs.used j ∧
        hs1.keys.getD j 0 = hs.keys.getD j 0 := by
  obtain ⟨hpos, hlt, hk, hus⟩ := hw
  have hne : r ≠ WSP_GGML_HASHSET_FULL := by
    have hfull : WSP_GGML_HASHSET_FULL = SIZE_MOD - 1 := rfl
    omega
  obtain ⟨e, he, hpe⟩ := find_ret_firstFree hs key r hpos hlt hf hne
  rcases insert_spec hs key hpos hlt with ⟨_, ha⟩ | ⟨e1, he1, hi⟩
  · exact absurd he (fun h => allBusy_not_firstFree hs key e ha h)
  · have hee : e1 = e := firstFree_unique hs key e1 e he1 he
    rw [hee, hpe, if_neg (by simp [hu])] at hi
    exact ⟨store hs r key, hi, store_used_self hs r key hr hus,
      store_keys_self hs r key (by omega), rfl,
      fun j hj => ⟨store_used_other hs r key j hj, store_keys_other hs r key j hj⟩⟩

theorem hash_insert_unoccupied_witness :
    (WellFormed sample_set ∧ wsp_ggml_hash_find sample_set 64 = Outcome.ret 0 ∧
      0 < sample_set.size ∧ wsp_ggml_bitset_get sample_set.used 0 = false) ∧
    ∃ hs1, wsp_ggml_hash_insert sample_set 64 = Outcome.ret (0, hs1) ∧
      wsp_ggml_bitset_get hs1.used 0 = true ∧ hs1.keys.getD 0 0 = 64 ∧
      hs1.size = sample_set.size ∧
      ∀ j, j ≠ 0 →
        wsp_ggml_bitset_get hs1.used j = wsp_ggml_bitset_get sample_set.used j ∧
        hs1.keys.getD j 0 = sample_set.keys.getD j 0 :=
  ⟨⟨⟨by decide, by decide, by decide, by decide⟩, by decide, by decide, by decide⟩,
    hash_insert_unoccupied sample_set 64 0 ⟨by decide, by decide, by decide, by decide⟩
      (by decide) (by decide) (by decide)⟩

/-- C5. On a set with `size > 0`, when `wsp_ggml_hash_find(key)` returns an occupied
slot `r`, that slot holds `key`, and `wsp_ggml_hash_insert(key)` returns
`WSP_GGML_HASHSET_ALREADY_EXISTS` and leaves the whole set unchanged. -/
theorem hash_insert_existing (hs : wsp_ggml_hash_set) (key r : Nat) (hpos : 0 < hs.size)
    (hlt : hs.size < SIZE_MOD) (hf : wsp_ggml_hash_find hs key = Outcome.ret r)
    (hr : r < hs.size) (hu : wsp_ggml_bitset_get hs.used r = true) :
    hs.keys.getD r 0 = key ∧
    wsp_ggml_hash_insert hs key = Outcome.ret (WSP_GGML_HASHSET_ALREADY_EXISTS, hs) := by
  have hne : r ≠ WSP_GGML_HASHSET_FULL := by
    have hfull : WSP_GGML_HASHSET_FULL = SIZE_MOD - 1 := rfl
    omega
  obtain ⟨e, he, hpe⟩ := find_ret_firstFree hs key r hpos hlt hf hne
  constructor
  · rcases firstFree_not_busy hs key e he with h | h
    · rw [hpe, hu] at h; cases h
    · rw [hpe] at h; exact h.2
  · rcases insert_spec hs key hpos hlt with ⟨_, ha⟩ | ⟨e1, he1, hi⟩
    · exact absurd he (fun h => allBusy_not_firstFree hs key e ha h)
    · have hee : e1 = e := firstFree_unique hs key e1 e he1 he
      rw [hee, hpe, if_pos hu] at hi
      exact hi

theorem hash_insert_existing_witness :
    (0 < sample_set.size ∧ sample_set.size < SIZE_MOD ∧
      wsp_ggml_hash_find sample_set 32 = Outcome.ret 2 ∧ 2 < sample_set.size ∧
      wsp_ggml_bitset_get sample_set.used 2 = true) ∧
    (sample_set.keys.getD 2 0 = 32 ∧
      wsp_ggml_hash_insert sample_set 32
        = Outcome.ret (WSP_GGML_HASHSET_ALREADY_EXISTS, sample_set)) :=
  ⟨by decide, hash_insert_existing sample_set 32 2 (by decide) (by decide) (by decide)
    (by decide) (by decide)⟩

/-- C6. On a well-formed set, when `wsp_ggml_hash_find(key)` returns `r` other than
`WSP_GGML_HASHSET_FULL`, `wsp_ggml_hash_find_or_insert(key)` returns exactly `r`; in the
resulting state slot `r` is occupied by `key`, nothing but slot `r` differs from the
state before (and nothing at all when `r` was occupied); a second call returns the same
`r` and leaves the state unchanged. -/
theorem hash_find_or_insert_registers (hs : wsp_ggml_hash_set) (key r : Nat)
    (hw : WellFormed hs) (hf : wsp_ggml_hash_find hs key = Outcome.ret r)
    (hr : r ≠ WSP_GGML_HASHSET_FULL) :
    ∃ hs1, wsp_ggml_hash_find_or_insert hs key = Outcome.ret (r, hs1) ∧
      wsp_ggml_bitset_get hs1.used r = true ∧ hs1.keys.getD r 0 = key ∧
      hs1.size = hs.size ∧
      (∀ j, j ≠ r →
        wsp_ggml_bitset_get hs1.used j = wsp_ggml_bitset_get hs.used j ∧
        hs1.keys.getD j 0 = hs.keys.getD j 0) ∧
      (wsp_ggml_bitset_get hs.used r = true → hs1 = hs) ∧
      wsp_ggml_hash_find_or_insert hs1 key = Outcome.ret (r, hs1) := by
  obtain ⟨hpos, hlt, hk, hus⟩ := hw
  obtain ⟨e, he, hpe⟩ := find_ret_firstFree hs key r hpos hlt hf hr
  have hrlt : r < hs.size := by rw [← hpe]; exact probe_lt hs key e hpos
  rcases find_or_insert_spec hs key hpos hlt with ⟨_, ha⟩ | ⟨e1, he1, hi⟩
  · exact absurd he (fun h => allBusy_not_firstFree hs key e ha h)
  · have hee : e1 = e := firstFree_unique hs key e1 e he1 he
    rw [hee, hpe] at hi
    by_cases hu : wsp_ggml_bitset_get hs.used r = true
    · rw [if_pos hu] at hi
      have hkey : hs.keys.getD r 0 = key := by
        rcases firstFree_not_busy hs key e he with h | h
        · rw [hpe, hu] at h; cases h
        · rw [hpe] at h; exact h.2
      exact ⟨hs, hi, hu, hkey, rfl, fun j _ => ⟨rfl, rfl⟩, fun _ => rfl, hi⟩
    · rw [if_neg hu] at hi
      have hu1 : wsp_ggml_bitset_get (store hs r key).used r = true :=
        store_used_self hs r key hrlt hus
      refine ⟨store hs r key, hi, hu1, store_keys_self hs r key (by omega), rfl,
        fun j hj => ⟨store_used_other hs r key j hj, store_keys_other hs r key j hj⟩,
        fun h => absurd h hu, ?_⟩
      have he2 : FirstFree (store hs r key) key e := by
        have := store_firstFree hs key e he hk
        rw [hpe] at this; exact this
      rcases find_or_insert_spec (store hs r key) key hpos hlt with ⟨_, ha⟩ | ⟨e3, he3, hi3⟩
      · exact absurd he2 (fun h => allBusy_not_firstFree _ key e ha h)
      · have hee3 : e3 = e := firstFree_unique _ key e3 e he3 he2
        rw [hee3, store_probe, hpe, if_pos hu1] at hi3
        exact hi3

theorem hash_find_or_insert_registers_witness :
    (WellFormed sample_set ∧ wsp_ggml_hash_find sample_set 64 = Outcome.ret 0 ∧
      0 ≠ WSP_GGML_HASHSET_FULL) ∧
    ∃ hs1, wsp_ggml_hash_find_or_insert sample_set 64 = Outcome.ret (0, hs1) ∧
      wsp_ggml_bitset_get hs1.used 0 = true ∧ hs1.keys.getD 0 0 = 64 ∧
      hs1.size = sample_set.size ∧
      (∀ j, j ≠ 0 →
        wsp_ggml_bitset_get hs1.used j = wsp_ggml_bitset_get sample_set.used j ∧
        hs1.keys.getD j 0 = sample_set.keys.getD j 0) ∧
      (wsp_ggml_bitset_get sample_set.used 0 = true → hs1 = sample_set) ∧
      wsp_ggml_hash_find_or_insert hs1 64 = Outcome.ret (0, hs1) :=
  ⟨⟨⟨by decide, by decide, by decide, by decide⟩, by decide, by decide⟩,
    hash_find_or_insert_registers sample_set 64 0 ⟨by decide, by decide, by decide, by decide⟩
      (by decide) (by decide)⟩

/-- C7. On a set with `size > 0`, `wsp_ggml_hash_insert(key)` and
`wsp_ggml_hash_find_or_insert(key)` reach the fatal abort exactly when every slot is
occupied and no slot holds `key`, which is exactly when `wsp_ggml_hash_find(key)`
returns `WSP_GGML_HASHSET_FULL`; in every other case they return normally. -/
theorem abort_iff_full_wrap (hs : wsp_ggml_hash_set) (key : Nat) (hpos : 0 < hs.size)
    (hlt : hs.size < SIZE_MOD) :
    (wsp_ggml_hash_insert hs key = Outcome.abort ↔
      ∀ i, i < hs.size → wsp_ggml_bitset_get hs.used i = true ∧ hs.keys.getD i 0 ≠ key) ∧
    (wsp_ggml_hash_find_or_insert hs key = Outcome.abort ↔
      ∀ i, i < hs.size → wsp_ggml_bitset_get hs.used i = true ∧ hs.keys.getD i 0 ≠ key) ∧
    (wsp_ggml_hash_find hs key = Outcome.ret WSP_GGML_HASHSET_FULL ↔
      ∀ i, i < hs.size → wsp_ggml_bitset_get hs.used i = true ∧ hs.keys.getD i 0 ≠ key) ∧
    (wsp_ggml_hash_insert hs key ≠ Outcome.abort →
      ∃ v hs1, wsp_ggml_hash_insert hs key = Outcome.ret (v, hs1)) ∧
    (wsp_ggml_hash_find_or_insert hs key ≠ Outcome.abort →
      ∃ v hs1, wsp_ggml_hash_find_or_insert hs key = Outcome.ret (v, hs1)) := by
  rw [← allBusy_iff]
  refine ⟨?_, ?_, ?_, ?_, ?_⟩
  · rcases insert_spec hs key hpos hlt with ⟨h1, ha⟩ | ⟨e, he, h1⟩
    · exact ⟨fun _ => ha, fun _ => h1⟩
    · constructor
      · intro h
        rw [h] at h1
        split at h1 <;> cases h1
      · intro ha
        exact absurd he (fun h => allBusy_not_firstFree hs key e ha h)
  · rcases find_or_insert_spec hs key hpos hlt with ⟨h1, ha⟩ | ⟨e, he, h1⟩
    · exact ⟨fun _ => ha, fun _ => h1⟩
    · constructor
      · intro h
        rw [h] at h1
        split at h1 <;> cases h1
      · intro ha
        exact absurd he (fun h => allBusy_not_firstFree hs key e ha h)
  · exact ⟨find_full_allBusy hs key hpos hlt, fun ha => by
      rcases find_spec hs key hpos hlt with ⟨h1, _⟩ | ⟨e, he, _⟩
      · exact h1
      · exact absurd he (fun h => allBusy_not_firstFree hs key e ha h)⟩
  · intro hne
    rcases insert_spec hs key hpos hlt with ⟨h1, _⟩ | ⟨e, _, h1⟩
    · exact absurd h1 hne
    · rw [h1]
      split
      · exact ⟨_, _, rfl⟩
      · exact ⟨_, _, rfl⟩
  · intro hne
    rcases find_or_insert_spec hs key hpos hlt with ⟨h1, _⟩ | ⟨e, _, h1⟩
    · exact absurd h1 hne
    · rw [h1]
      split
      · exact ⟨_, _, rfl⟩
      · exact ⟨_, _, rfl⟩

theorem abort_iff_full_wrap_witness :
    (0 < full_set.size ∧ full_set.size < SIZE_MOD) ∧
    ((wsp_ggml_hash_insert full_set 32 = Outcome.abort ↔
      ∀ i, i < full_set.size →
        wsp_ggml_bitset_get full_set.used i = true ∧ full_set.keys.getD i 0 ≠ 32) ∧
    (wsp_ggml_hash_find_or_insert full_set 32 = Outcome.abort ↔
      ∀ i, i < full_set.size →
        wsp_ggml_bitset_get full_set.used i = true ∧ full_set.keys.getD i 0 ≠ 32) ∧
    (wsp_ggml_hash_find full_set 32 = Outcome.ret WSP_GGML_HASHSET_FULL ↔
      ∀ i, i < full_set.size →
        wsp_ggml_bitset_get full_set.used i = true ∧ full_set.keys.getD i 0 ≠ 32) ∧
    (wsp_ggml_hash_insert full_set 32 ≠ Outcome.abort →
      ∃ v hs1, wsp_ggml_hash_insert full_set 32 = Outcome.ret (v, hs1)) ∧
    (wsp_ggml_hash_find_or_insert full_set 32 ≠ Outcome.abort →
      ∃ v hs1, wsp_ggml_hash_find_or_insert full_set 32 = Outcome.ret (v, hs1))) :=
  ⟨by decide, abort_iff_full_wrap full_set 32 (by decide) (by decide)⟩

/-- C8, refuted as stated: in `full_set` every slot is occupied, yet
`wsp_ggml_hash_find` of the key the table holds returns its slot 0, not
`WSP_GGML_HASHSET_FULL`. -/
theorem hash_find_full_table_hit :
    0 < full_set.size ∧
    (∀ i, i < full_set.size → wsp_ggml_bitset_get full_set.used i = true) ∧
    wsp_ggml_hash_find full_set 16 = Outcome.ret 0 ∧
    wsp_ggml_hash_find full_set 16 ≠ Outcome.ret WSP_GGML_HASHSET_FULL := by
  decide

/-- C8, amended. On a set with `size > 0`: when every slot is occupied and none holds
`key`, `wsp_ggml_hash_find` returns `WSP_GGML_HASHSET_FULL`; in every other case (a
slot is unoccupied, or a slot holds `key`, also on a full table) it returns a slot
`r < size` that either is occupied and holds `key`, or is unoccupied and is the slot
where `wsp_ggml_hash_insert` stores `key`; and in a state with the probe-chain property
a slot that holds `key` is the one returned. -/
theorem hash_find_full_or_index (hs : wsp_ggml_hash_set) (key : Nat) (hpos : 0 < hs.size)
    (hlt : hs.size < SIZE_MOD) :
    ((∀ i, i < hs.size → wsp_ggml_bitset_get hs.used i = true ∧ hs.keys.getD i 0 ≠ key) →
      wsp_ggml_hash_find hs key = Outcome.ret WSP_GGML_HASHSET_FULL) ∧
    (¬ (∀ i, i < hs.size → wsp_ggml_bitset_get hs.used i = true ∧ hs.keys.getD i 0 ≠ key) →
      ∃ r, wsp_ggml_hash_find hs key = Outcome.ret r ∧ r < hs.size ∧
        ((wsp_ggml_bitset_get hs.used r = true ∧ hs.keys.getD r 0 = key) ∨
         (wsp_ggml_bitset_get hs.used r = false ∧
          wsp_ggml_hash_insert hs key
            = Outcome.ret (r, { hs with used := wsp_ggml_bitset_set hs.used r,
                                        keys := hs.keys.set r key })))) ∧
    (Chain hs → ∀ i, i < hs.size → wsp_ggml_bitset_get hs.used i = true →
      hs.keys.getD i 0 = key → wsp_ggml_hash_find hs key = Outcome.ret i) := by
  rw [← allBusy_iff]
  refine ⟨?_, ?_, ?_⟩
  · intro ha
    rcases find_spec hs key hpos hlt with ⟨h1, _⟩ | ⟨e, he, _⟩
    · exact h1
    · exact absurd he (fun h => allBusy_not_firstFree hs key e ha h)
  · intro hna
    rcases find_spec hs key hpos hlt with ⟨_, ha⟩ | ⟨e, he, h1⟩
    · exact absurd ha hna
    · refine ⟨_, h1, probe_lt hs key e hpos, ?_⟩
      rcases firstFree_not_busy hs key e he with h | h
      · right
        refine ⟨h, ?_⟩
        rcases insert_spec hs key hpos hlt with ⟨_, ha⟩ | ⟨e1, he1, hi⟩
        · exact absurd he (fun h => allBusy_not_firstFree hs key e ha h)
        · have hee : e1 = e := firstFree_unique hs key e1 e he1 he
          rw [hee, if_neg (by simp [h])] at hi
          exact hi
      · exact Or.inl h
  · intro hc i hi hu hk
    obtain ⟨d, hd, hdi⟩ := hc i hi hu
    rw [hk] at hd hdi
    rcases find_spec hs key hpos hlt with ⟨_, ha⟩ | ⟨e, he, h1⟩
    · exact absurd hd (fun h => allBusy_not_firstFree hs key d ha h)
    · have hee : e = d := firstFree_unique hs key e d he hd
      rw [h1, hee, hdi]

theorem hash_find_full_or_index_witness :
    (0 < full_set.size ∧ full_set.size < SIZE_MOD) ∧
    (((∀ i, i < full_set.size →
          wsp_ggml_bitset_get full_set.used i = true ∧ full_set.keys.getD i 0 ≠ 16) →
      wsp_ggml_hash_find full_set 16 = Outcome.ret WSP_GGML_HASHSET_FULL) ∧
    (¬ (∀ i, i < full_set.size →
          wsp_ggml_bitset_get full_set.used i = true ∧ full_set.keys.getD i 0 ≠ 16) →
      ∃ r, wsp_ggml_hash_find full_set 16 = Outcome.ret r ∧ r < full_set.size ∧
        ((wsp_ggml_bitset_get full_set.used r = true ∧ full_set.keys.getD r 0 = 16) ∨
         (wsp_ggml_bitset_get full_set.used r = false ∧
          wsp_ggml_hash_insert full_set 16
            = Outcome.ret (r, { full_set with used := wsp_ggml_bitset_set full_set.used r,
                                              keys := full_set.keys.set r 16 })))) ∧
    (Chain full_set → ∀ i, i < full_set.size → wsp_ggml_bitset_get full_set.used i = true →
      full_set.keys.getD i 0 = 16 → wsp_ggml_hash_find full_set 16 = Outcome.ret i)) :=
  ⟨by decide, hash_find_full_or_index full_set 16 (by decide) (by decide)⟩

/-! ## Claims on the bitset -/

/-- C9. Bitset roundtrip: for valid indices `i` and `j` with `j ≠ i`, after
`wsp_ggml_bitset_set(i)` the flag `i` reads true and the flag `j` reads what it read
before, and after a following `wsp_ggml_bitset_clear(i)` the flag `i` reads false. -/
theorem bitset_roundtrip (bitset : List Nat) (i j : Nat)
    (hi : i < 32 * bitset.length) (_hj : j < 32 * bitset.length) (hji : j ≠ i) :
    wsp_ggml_bitset_get (wsp_ggml_bitset_set bitset i) i = true ∧
    wsp_ggml_bitset_get (wsp_ggml_bitset_set bitset i) j = wsp_ggml_bitset_get bitset j ∧
    wsp_ggml_bitset_get (wsp_ggml_bitset_clear (wsp_ggml_bitset_set bitset i) i) i = false :=
  ⟨bitset_get_set_self bitset i (by omega), bitset_get_set_other bitset i j hji,
    bitset_get_clear_self _ i⟩

theorem bitset_roundtrip_witness :
    (37 < 32 * [5, 0].length ∧ 2 < 32 * [5, 0].length ∧ 2 ≠ 37) ∧
    (wsp_ggml_bitset_get (wsp_ggml_bitset_set [5, 0] 37) 37 = true ∧
     wsp_ggml_bitset_get (wsp_ggml_bitset_set [5, 0] 37) 2 = wsp_ggml_bitset_get [5, 0] 2 ∧
     wsp_ggml_bitset_get (wsp_ggml_bitset_clear (wsp_ggml_bitset_set [5, 0] 37) 37) 37 = false) :=
  ⟨by decide, bitset_roundtrip [5, 0] 37 2 (by decide) (by decide) (by decide)⟩

/-- C10, refuted as stated: for the `size_t` value `n = 2^64 - 1` the sum `n + 31` wraps
and `wsp_ggml_bitset_size` returns 0, which is not the ceiling of `n / 32` and does not
back `n` flags. -/
theorem bitset_size_wraps :
    SIZE_MOD - 1 < SIZE_MOD ∧
    wsp_ggml_bitset_size (SIZE_MOD - 1) = 0 ∧
    wsp_ggml_bitset_size (SIZE_MOD - 1) ≠ ⌈(((SIZE_MOD - 1 : ℕ) : ℚ)) / 32⌉₊ ∧
    ¬ (SIZE_MOD - 1 ≤ 32 * wsp_ggml_bitset_size (SIZE_MOD - 1)) := by
  have h0 : wsp_ggml_bitset_size (SIZE_MOD - 1) = 0 := by decide
  refine ⟨by decide, h0, ?_, by decide⟩
  rw [h0]
  intro h
  have hpos : 0 < ⌈(((SIZE_MOD - 1 : ℕ) : ℚ)) / 32⌉₊ := by
    rw [Nat.ceil_pos]
    have : (0 : ℚ) < ((SIZE_MOD - 1 : ℕ) : ℚ) := by
      have : 0 < SIZE_MOD - 1 := by decide
      exact_mod_cast this
    positivity
  omega

/-- C10, amended: for every flag count `n` with `n + 31 < 2^64` (no wrap of the `size_t`
sum), `wsp_ggml_bitset_size n` is the ceiling of `n / 32`: it is the least number of
32-bit words backing `n` flags. -/
theorem bitset_size_ceil (n : Nat) (hn : n + 31 < SIZE_MOD) :
    wsp_ggml_bitset_size n = ⌈((n : ℕ) : ℚ) / 32⌉₊ ∧
    n ≤ 32 * wsp_ggml_bitset_size n ∧
    ∀ w : Nat, n ≤ 32 * w → wsp_ggml_bitset_size n ≤ w := by
  have hsz : wsp_ggml_bitset_size n = (n + 31) / 32 := by
    unfold wsp_ggml_bitset_size
    have hm : BITSET_MASK = 31 := by decide
    rw [hm, Nat.mod_eq_of_lt hn, Nat.shiftRight_eq_div_pow]
    rfl
  refine ⟨?_, by omega, fun w hw => by omega⟩
  rw [hsz]
  apply le_antisymm
  · rcases Nat.eq_zero_or_pos ((n + 31) / 32) with h0 | hpos
    · omega
    · have hlt : (n + 31) / 32 - 1 < ⌈((n : ℕ) : ℚ) / 32⌉₊ := by
        rw [Nat.lt_ceil, lt_div_iff₀ (by norm_num)]
        have h1 : ((n + 31) / 32 - 1) * 32 < n := by omega
        exact_mod_cast h1
      omega
  · rw [Nat.ceil_le, div_le_iff₀ (by norm_num)]
    have h1 : n ≤ (n + 31) / 32 * 32 := by omega
    exact_mod_cast h1

theorem bitset_size_ceil_witness :
    (33 + 31 < SIZE_MOD) ∧
    (wsp_ggml_bitset_size 33 = ⌈((33 : ℕ) : ℚ) / 32⌉₊ ∧
     33 ≤ 32 * wsp_ggml_bitset_size 33 ∧
     ∀ w : Nat, 33 ≤ 32 * w → wsp_ggml_bitset_size 33 ≤ w) :=
  ⟨by decide, bitset_size_ceil 33 (by decide)⟩

/-! ## Bit patterns as arithmetic -/

theorem and_low31 (u : Nat) : u &&& 0x7fffffff = u % 2147483648 := by
  have h := Nat.and_pow_two_sub_one_eq_mod u 31
  simpa using h

theorem and_low16 (u : Nat) : u &&& 0xffff = u % 65536 := by
  have h := Nat.and_pow_two_sub_one_eq_mod u 16
  simpa using h

theorem and_low15 (u : Nat) : u &&& 0x7fff = u % 32768 := by
  have h := Nat.and_pow_two_sub_one_eq_mod u 15
  simpa using h

theorem shr16 (u : Nat) : u >>> 16 = u / 65536 := by
  rw [Nat.shiftRight_eq_div_pow]

theorem shl16 (h : Nat) : h <<< 16 = h * 65536 := by
  rw [Nat.shiftLeft_eq]

theorem testBit_div_mod (x i : Nat) : x.testBit i = decide (x / 2 ^ i % 2 = 1) :=
  Nat.testBit_to_div_mod

theorem or_64_low : ∀ b, b < 128 → b ||| 64 = if b < 64 then b + 64 else b := by
  decide

theorem or_64 (t : Nat) : t ||| 64 = if t % 128 < 64 then t + 64 else t := by
  have hb : t % 128 < 2 ^ 7 := Nat.mod_lt _ (by norm_num)
  have hdecomp : t = 2 ^ 7 * (t / 128) + t % 128 := by
    have := Nat.div_add_mod t 128
    omega
  have hor : (t % 128 ||| 64) < 2 ^ 7 := Nat.or_lt_two_pow hb (by norm_num)
  have h1 : t ||| 64 = 2 ^ 7 * (t / 128) + (t % 128 ||| 64) := by
    rw [Nat.mul_add_lt_is_or hor]
    conv_lhs => rw [hdecomp, Nat.mul_add_lt_is_or hb, Nat.or_assoc]
  rw [h1, or_64_low _ (by simpa using hb)]
  split <;> omega

/-! ## Claims on the bf16 conversion -/

/-- C11. `wsp_ggml_compute_fp32_to_bf16` rounds to nearest, ties to even: for every
32-bit pattern `u` that is not a NaN, with `t = u >> 16` and `low = u & 0xffff`, the
result is `t` when `low < 0x8000`, `t + 1` when `low > 0x8000`, and at the tie
`low = 0x8000` it is `t` when bit 16 of `u` is 0 and `t + 1` when it is 1, so it is
even; the result shifted left by 16 differs from `u` by at most `0x8000`. -/
theorem fp32_to_bf16_nearest_even (u : Nat) (hu : u < UINT32_MOD)
    (hnum : (u &&& 0x7fffffff) ≤ 0x7f800000) :
    (u &&& 0xffff < 0x8000 → wsp_ggml_compute_fp32_to_bf16 u = u >>> 16) ∧
    (u &&& 0xffff > 0x8000 → wsp_ggml_compute_fp32_to_bf16 u = (u >>> 16) + 1) ∧
    (u &&& 0xffff = 0x8000 →
      (u.testBit 16 = false → wsp_ggml_compute_fp32_to_bf16 u = u >>> 16) ∧
      (u.testBit 16 = true → wsp_ggml_compute_fp32_to_bf16 u = (u >>> 16) + 1) ∧
      wsp_ggml_compute_fp32_to_bf16 u % 2 = 0) ∧
    (wsp_ggml_compute_fp32_to_bf16 u <<< 16 ≤ u + 0x8000 ∧
      u ≤ (wsp_ggml_compute_fp32_to_bf16 u <<< 16) + 0x8000) := by
  have hu1 : u < 4294967296 := hu
  rw [and_low31] at hnum
  have hf : wsp_ggml_compute_fp32_to_bf16 u = (u + (0x7fff + u / 65536 % 2)) / 65536 := by
    unfold wsp_ggml_compute_fp32_to_bf16
    rw [if_neg (by rw [and_low31]; omega)]
    simp only [shr16, Nat.and_one_is_mod, UINT32_MOD, UINT16_MOD]
    omega
  rw [and_low16, shr16, shl16, testBit_div_mod, hf]
  simp only [decide_eq_false_iff_not, decide_eq_true_eq]
  have h16 : (2 : Nat) ^ 16 = 65536 := by norm_num
  rw [h16]
  rcases Nat.mod_two_eq_zero_or_one (u / 65536) with hb | hb
  · rw [hb]
    refine ⟨fun h => by omega, fun h => by omega,
      fun h => ⟨fun _ => by omega, fun hb1 => by omega, by omega⟩, by omega, by omega⟩
  · rw [hb]
    refine ⟨fun h => by omega, fun h => by omega,
      fun h => ⟨fun hb0 => by omega, fun _ => by omega, by omega⟩, by omega, by omega⟩

theorem fp32_to_bf16_nearest_even_witness :
    (0x3F818000 < UINT32_MOD ∧ (0x3F818000 &&& 0x7fffffff) ≤ 0x7f800000) ∧
    ((0x3F818000 &&& 0xffff < 0x8000 →
        wsp_ggml_compute_fp32_to_bf16 0x3F818000 = 0x3F818000 >>> 16) ∧
    (0x3F818000 &&& 0xffff > 0x8000 →
        wsp_ggml_compute_fp32_to_bf16 0x3F818000 = (0x3F818000 >>> 16) + 1) ∧
    (0x3F818000 &&& 0xffff = 0x8000 →
      ((0x3F818000).testBit 16 = false →
        wsp_ggml_compute_fp32_to_bf16 0x3F818000 = 0x3F818000 >>> 16) ∧
      ((0x3F818000).testBit 16 = true →
        wsp_ggml_compute_fp32_to_bf16 0x3F818000 = (0x3F818000 >>> 16) + 1) ∧
      wsp_ggml_compute_fp32_to_bf16 0x3F818000 % 2 = 0) ∧
    (wsp_ggml_compute_fp32_to_bf16 0x3F818000 <<< 16 ≤ 0x3F818000 + 0x8000 ∧
      0x3F818000 ≤ (wsp_ggml_compute_fp32_to_bf16 0x3F818000 <<< 16) + 0x8000)) :=
  ⟨by decide, fp32_to_bf16_nearest_even 0x3F818000 (by decide) (by decide)⟩

/-- C12. For every float32 NaN pattern `u`, the bf16 pattern `r` returned by
`wsp_ggml_compute_fp32_to_bf16` decodes through `wsp_ggml_compute_bf16_to_fp32` to a
NaN (exponent field all ones, mantissa nonzero, so the NaN test of the encoder holds
again) whose quiet bit is set (bit 22 of the float, bit 6 of `r`); `r` is neither
`0x7F80` nor `0xFF80`. -/
theorem fp32_to_bf16_nan_quiet (u : Nat) (hu : u < UINT32_MOD)
    (hnan : (u &&& 0x7fffffff) > 0x7f800000) :
    ((wsp_ggml_compute_bf16_to_fp32 (wsp_ggml_compute_fp32_to_bf16 u)) >>> 23) &&& 0xff = 0xff ∧
    (wsp_ggml_compute_bf16_to_fp32 (wsp_ggml_compute_fp32_to_bf16 u)) &&& 0x7fffff ≠ 0 ∧
    (wsp_ggml_compute_bf16_to_fp32 (wsp_ggml_compute_fp32_to_bf16 u)) &&& 0x7fffffff
      > 0x7f800000 ∧
    (wsp_ggml_compute_bf16_to_fp32 (wsp_ggml_compute_fp32_to_bf16 u)).testBit 22 = true ∧
    (wsp_ggml_compute_fp32_to_bf16 u).testBit 6 = true ∧
    wsp_ggml_compute_fp32_to_bf16 u ≠ 0x7F80 ∧
    wsp_ggml_compute_fp32_to_bf16 u ≠ 0xFF80 := by
  have hu1 : u < 4294967296 := hu
  have hnan1 : u % 2147483648 > 0x7f800000 := by rw [← and_low31]; exact hnan
  have hr : wsp_ggml_compute_fp32_to_bf16 u
      = if u / 65536 % 128 < 64 then u / 65536 + 64 else u / 65536 := by
    unfold wsp_ggml_compute_fp32_to_bf16
    rw [if_pos hnan, shr16, or_64]
    simp only [UINT16_MOD]
    split <;> omega
  have hd : wsp_ggml_compute_bf16_to_fp32 (wsp_ggml_compute_fp32_to_bf16 u)
      = wsp_ggml_compute_fp32_to_bf16 u * 65536 := by
    unfold wsp_ggml_compute_bf16_to_fp32
    rw [shl16, hr]
    simp only [UINT32_MOD]
    split <;> omega
  have h255 : (0xff : Nat) = 2 ^ 8 - 1 := by norm_num
  have h23 : (0x7fffff : Nat) = 2 ^ 23 - 1 := by norm_num
  rw [hd, testBit_div_mod, testBit_div_mod, and_low31, Nat.shiftRight_eq_div_pow, h255,
    Nat.and_pow_two_sub_one_eq_mod, h23, Nat.and_pow_two_sub_one_eq_mod, hr]
  simp only [decide_eq_true_eq]
  norm_num
  split <;> omega

theorem fp32_to_bf16_nan_quiet_witness :
    (0x7F800001 < UINT32_MOD ∧ (0x7F800001 &&& 0x7fffffff) > 0x7f800000) ∧
    (((wsp_ggml_compute_bf16_to_fp32 (wsp_ggml_compute_fp32_to_bf16 0x7F800001)) >>> 23)
        &&& 0xff = 0xff ∧
    (wsp_ggml_compute_bf16_to_fp32 (wsp_ggml_compute_fp32_to_bf16 0x7F800001)) &&& 0x7fffff
        ≠ 0 ∧
    (wsp_ggml_compute_bf16_to_fp32 (wsp_ggml_compute_fp32_to_bf16 0x7F800001)) &&& 0x7fffffff
      > 0x7f800000 ∧
    (wsp_ggml_compute_bf16_to_fp32 (wsp_ggml_compute_fp32_to_bf16 0x7F800001)).testBit 22
      = true ∧
    (wsp_ggml_compute_fp32_to_bf16 0x7F800001).testBit 6 = true ∧
    wsp_ggml_compute_fp32_to_bf16 0x7F800001 ≠ 0x7F80 ∧
    wsp_ggml_compute_fp32_to_bf16 0x7F800001 ≠ 0xFF80) :=
  ⟨by decide, fp32_to_bf16_nan_quiet 0x7F800001 (by decide) (by decide)⟩

/-- C17. bf16 encode undoes bf16 decode: for every 16-bit pattern `h` that is not a NaN
(`(h & 0x7fff) <= 0x7f80`), `wsp_ggml_compute_fp32_to_bf16` of
`wsp_ggml_compute_bf16_to_fp32(h)` is `h`; for every NaN pattern `h` it is
`h | 0x0040`. -/
theorem bf16_encode_decode (h : Nat) (hh : h < UINT16_MOD) :
    ((h &&& 0x7fff) ≤ 0x7f80 →
      wsp_ggml_compute_fp32_to_bf16 (wsp_ggml_compute_bf16_to_fp32 h) = h) ∧
    ((h &&& 0x7fff) > 0x7f80 →
      wsp_ggml_compute_fp32_to_bf16 (wsp_ggml_compute_bf16_to_fp32 h) = h ||| 0x0040) := by
  have hh1 : h < 65536 := hh
  have hd : wsp_ggml_compute_bf16_to_fp32 h = h * 65536 := by
    unfold wsp_ggml_compute_bf16_to_fp32
    rw [shl16]
    simp only [UINT32_MOD]
    omega
  rw [and_low15, hd]
  constructor
  · intro hnum
    unfold wsp_ggml_compute_fp32_to_bf16
    rw [if_neg (by rw [and_low31]; omega)]
    have h1 : h * 65536 / 65536 = h := by omega
    simp only [shr16, Nat.and_one_is_mod, UINT32_MOD, UINT16_MOD, h1]
    rcases Nat.mod_two_eq_zero_or_one h with hb | hb
    · rw [hb]; omega
    · rw [hb]; omega
  · intro hnan
    unfold wsp_ggml_compute_fp32_to_bf16
    rw [if_pos (by rw [and_low31]; omega), shr16]
    have h1 : h * 65536 / 65536 = h := by omega
    have h2 : h ||| 64 < 2 ^ 16 := Nat.or_lt_two_pow (by simpa using hh1) (by norm_num)
    rw [h1]
    simp only [UINT16_MOD]
    exact Nat.mod_eq_of_lt (by simpa using h2)

theorem bf16_encode_decode_witness :
    (0x7F81 < UINT16_MOD) ∧
    (((0x7F81 &&& 0x7fff) ≤ 0x7f80 →
      wsp_ggml_compute_fp32_to_bf16 (wsp_ggml_compute_bf16_to_fp32 0x7F81) = 0x7F81) ∧
    ((0x7F81 &&& 0x7fff) > 0x7f80 →
      wsp_ggml_compute_fp32_to_bf16 (wsp_ggml_compute_bf16_to_fp32 0x7F81)
        = 0x7F81 ||| 0x0040)) :=
  ⟨by decide, bf16_encode_decode 0x7F81 (by decide)⟩

/-! ## Rounding up to a power of two -/

theorem and_not_low (x k : Nat) (hx : x < 2 ^ 32) :
    x &&& (UINT32_MAX ^^^ (2 ^ k - 1)) = x / 2 ^ k * 2 ^ k := by
  apply Nat.eq_of_testBit_eq
  intro i
  rw [← Nat.shiftRight_eq_div_pow, ← Nat.shiftLeft_eq, Nat.testBit_and, Nat.testBit_xor,
    testBit_UINT32_MAX, Nat.testBit_two_pow_sub_one, Nat.testBit_shiftLeft,
    Nat.testBit_shiftRight]
  by_cases hi32 : i < 32
  · by_cases hik : i < k
    · have : ¬ i ≥ k := by omega
      simp [hik, this, hi32]
    · have hge : i ≥ k := by omega
      have hidx : k + (i - k) = i := by omega
      rw [hidx]
      simp [hik, hge, hi32]
  · have hxi : x.testBit i = false :=
      Nat.testBit_lt_two_pow (lt_of_lt_of_le hx (Nat.pow_le_pow_right (by norm_num) (by omega)))
    by_cases hik : i < k
    · have : ¬ i ≥ k := by omega
      simp [hxi, this]
    · have hidx : k + (i - k) = i := by omega
      rw [hidx]
      simp [hxi]

theorem bits_of_int32_natCast (a : Nat) (ha : a < 4294967296) :
    bits_of_int32 (a : Int) = a := by
  unfold bits_of_int32
  have h : ((a : Int)) % 4294967296 = (a : Int) :=
    Int.emod_eq_of_lt (by omega) (by omega)
  rw [h]
  exact Int.toNat_natCast a

theorem int32_of_bits_small (w : Nat) (hw : w < 2147483648) : int32_of_bits w = (w : Int) := by
  unfold int32_of_bits
  rw [if_pos hw]

theorem bits_of_int32_of_bits (w : Nat) (hw : w < 4294967296) :
    bits_of_int32 (int32_of_bits w) = w := by
  unfold int32_of_bits bits_of_int32
  split
  · have h : ((w : Int)) % 4294967296 = (w : Int) := Int.emod_eq_of_lt (by omega) (by omega)
    rw [h]
    exact Int.toNat_natCast w
  · have h : ((w : Int) - 4294967296) % 4294967296 = (w : Int) := by omega
    rw [h]
    exact Int.toNat_natCast w

theorem int_in_range_natCast (a : Nat) (ha : a ≤ 2147483647) : int_in_range (a : Int) = true := by
  unfold int_in_range INT_MIN INT_MAX
  simp only [Bool.and_eq_true, decide_eq_true_eq]
  omega

/-- Value of `wsp_ggml_up` on a non-negative `n` and a power of two when `n + m` is an
`int`. -/
theorem up_value (k n : Nat) (hsum : n + 2 ^ k ≤ 2147483647) :
    wsp_ggml_up (n : Int) ((2 ^ k : Nat) : Int)
      = Outcome.ret (((n + 2 ^ k - 1) / 2 ^ k * 2 ^ k : Nat) : Int) := by
  have hpos : 0 < 2 ^ k := pow_pos (by norm_num) k
  have hm1 : ((2 ^ k : Nat) : Int) - 1 = ((2 ^ k - 1 : Nat) : Int) := by omega
  have hnm : (n : Int) + ((2 ^ k : Nat) : Int) = ((n + 2 ^ k : Nat) : Int) := by omega
  have hnm1 : ((n + 2 ^ k : Nat) : Int) - 1 = ((n + 2 ^ k - 1 : Nat) : Int) := by omega
  have hassert : (2 ^ k &&& (2 ^ k - 1)) = 0 := by
    rw [Nat.and_pow_two_sub_one_eq_mod, Nat.mod_self]
  have hand : int_and ((2 ^ k : Nat) : Int) ((2 ^ k - 1 : Nat) : Int) = 0 := by
    unfold int_and
    rw [bits_of_int32_natCast _ (by omega), bits_of_int32_natCast _ (by omega), hassert]
    rfl
  have hxor : UINT32_MAX ^^^ (2 ^ k - 1) < 2 ^ 32 :=
    Nat.xor_lt_two_pow (by decide) (by omega)
  have hle : (n + 2 ^ k - 1) / 2 ^ k * 2 ^ k ≤ n + 2 ^ k - 1 := Nat.div_mul_le_self _ _
  have hres : int_and ((n + 2 ^ k - 1 : Nat) : Int) (int_not ((2 ^ k - 1 : Nat) : Int))
      = (((n + 2 ^ k - 1) / 2 ^ k * 2 ^ k : Nat) : Int) := by
    unfold int_and int_not
    rw [bits_of_int32_natCast (2 ^ k - 1) (by omega),
      bits_of_int32_of_bits _ (by simpa using hxor),
      bits_of_int32_natCast (n + 2 ^ k - 1) (by omega),
      and_not_low _ k (by omega), int32_of_bits_small _ (by omega)]
  unfold wsp_ggml_up
  rw [hm1, hnm, hnm1, hand, hres, int_in_range_natCast _ (by omega),
    int_in_range_natCast _ (by omega), int_in_range_natCast _ (by omega)]
  rfl

/-- C20, refuted as stated: `n = INT_MAX`, `m = 2^0` satisfy `n + m - 1 <= INT_MAX`, but
`wsp_ggml_up` first forms `n + m = 2^31`, which is not an `int`; and for
`n = INT_MAX - 31` the same happens in `wsp_ggml_up(n, 32)` while `wsp_ggml_up32(n)`
returns. -/
theorem up_sum_leaves_int :
    (0 : Int) ≤ INT_MAX ∧ INT_MAX + 1 - 1 ≤ INT_MAX ∧
    wsp_ggml_up INT_MAX 1 = Outcome.undef ∧
    (0 : Int) ≤ INT_MAX - 31 ∧ INT_MAX - 31 ≤ INT_MAX - 31 ∧
    wsp_ggml_up (INT_MAX - 31) 32 = Outcome.undef ∧
    wsp_ggml_up32 (INT_MAX - 31) = Outcome.ret 2147483616 := by
  decide

/-- C20, amended. For every power of two `m = 2^k` (`k >= 0`) and every `n >= 0` with
`n + m <= INT_MAX`, `wsp_ggml_up(n, m)` passes its assertion and returns the smallest
multiple of `m` that is `>= n`; and `wsp_ggml_up32(n)` returns the same value as
`wsp_ggml_up(n, 32)` for every `n` with `0 <= n <= INT_MAX - 32`. -/
theorem up_smallest_multiple (k : Nat) (n : Int) (hn0 : 0 ≤ n)
    (hsum : n + 2 ^ k ≤ INT_MAX) :
    (∃ r, wsp_ggml_up n (2 ^ k) = Outcome.ret r ∧ r ≤ INT_MAX ∧ (2 : Int) ^ k ∣ r ∧ n ≤ r ∧
      ∀ r1 : Int, (2 : Int) ^ k ∣ r1 → n ≤ r1 → r ≤ r1) ∧
    (∀ n1 : Int, 0 ≤ n1 → n1 ≤ INT_MAX - 32 →
      ∃ r, wsp_ggml_up n1 32 = Outcome.ret r ∧ wsp_ggml_up32 n1 = Outcome.ret r) := by
  have hmax : INT_MAX = 2147483647 := rfl
  constructor
  · lift n to Nat using hn0
    have hcast : (2 : Int) ^ k = ((2 ^ k : Nat) : Int) := by push_cast; rfl
    rw [hcast, hmax] at hsum
    have hsumN : n + 2 ^ k ≤ 2147483647 := by exact_mod_cast hsum
    have hpos : 0 < 2 ^ k := pow_pos (by norm_num) k
    have hlt : n + 2 ^ k - 1 < 2 ^ k * ((n + 2 ^ k - 1) / 2 ^ k + 1) :=
      Nat.lt_mul_div_succ _ hpos
    have hle : (n + 2 ^ k - 1) / 2 ^ k * 2 ^ k ≤ n + 2 ^ k - 1 := Nat.div_mul_le_self _ _
    rw [Nat.mul_add, Nat.mul_one, Nat.mul_comm] at hlt
    rw [hcast]
    refine ⟨_, up_value k n hsumN, ?_, ?_, ?_, ?_⟩
    · rw [hmax]
      have : (n + 2 ^ k - 1) / 2 ^ k * 2 ^ k ≤ 2147483647 := by omega
      exact_mod_cast this
    · exact ⟨(((n + 2 ^ k - 1) / 2 ^ k : Nat) : Int), by push_cast; ring⟩
    · have : n ≤ (n + 2 ^ k - 1) / 2 ^ k * 2 ^ k := by omega
      exact_mod_cast this
    · intro r1 hdvd hr1
      obtain ⟨c, hc⟩ := hdvd
      have hr1nn : (0 : Int) ≤ r1 := le_trans (Int.natCast_nonneg n) hr1
      have hmpos : (0 : Int) < ((2 ^ k : Nat) : Int) := by exact_mod_cast hpos
      have hcnn : 0 ≤ c := by
        by_contra hneg
        have hc1 : c ≤ -1 := by omega
        have : ((2 ^ k : Nat) : Int) * c ≤ ((2 ^ k : Nat) : Int) * (-1) :=
          Int.mul_le_mul_of_nonneg_left hc1 (le_of_lt hmpos)
        omega
      lift c to Nat using hcnn
      have hr1N : r1 = ((2 ^ k * c : Nat) : Int) := by rw [hc]; push_cast; rfl
      rw [hr1N] at hr1 ⊢
      have hr1le : n ≤ 2 ^ k * c := by exact_mod_cast hr1
      have hq : (n + 2 ^ k - 1) / 2 ^ k < c + 1 := by
        rw [Nat.div_lt_iff_lt_mul hpos, Nat.add_mul, Nat.one_mul, Nat.mul_comm]
        omega
      have hfin : (n + 2 ^ k - 1) / 2 ^ k * 2 ^ k ≤ 2 ^ k * c := by
        rw [Nat.mul_comm (2 ^ k) c]
        exact Nat.mul_le_mul_right _ (by omega)
      exact_mod_cast hfin
  · intro n1 h0 h1
    rw [hmax] at h1
    have hr1 : int_in_range ((32 : Int) - 1) = true := by decide
    have hand : int_and 32 (32 - 1) = 0 := by decide
    have hr2 : int_in_range (n1 + 32) = true := by
      unfold int_in_range INT_MIN INT_MAX
      simp only [Bool.and_eq_true, decide_eq_true_eq]
      omega
    have hr3 : int_in_range (n1 + 32 - 1) = true := by
      unfold int_in_range INT_MIN INT_MAX
      simp only [Bool.and_eq_true, decide_eq_true_eq]
      omega
    have hr4 : int_in_range (n1 + 31) = true := by
      unfold int_in_range INT_MIN INT_MAX
      simp only [Bool.and_eq_true, decide_eq_true_eq]
      omega
    have he1 : n1 + 32 - 1 = n1 + 31 := by omega
    have he2 : (32 : Int) - 1 = 31 := by norm_num
    refine ⟨int_and (n1 + 31) (int_not 31), ?_, ?_⟩
    · unfold wsp_ggml_up
      rw [hr1, hand, hr2, hr3, he1, he2]
      rfl
    · unfold wsp_ggml_up32
      rw [hr4]
      rfl

theorem up_smallest_multiple_witness :
    ((0 : Int) ≤ 33 ∧ (33 : Int) + 2 ^ 5 ≤ INT_MAX) ∧
    ((∃ r, wsp_ggml_up 33 (2 ^ 5) = Outcome.ret r ∧ r ≤ INT_MAX ∧ (2 : Int) ^ 5 ∣ r ∧
      (33 : Int) ≤ r ∧ ∀ r1 : Int, (2 : Int) ^ 5 ∣ r1 → 33 ≤ r1 → r ≤ r1) ∧
    (∀ n1 : Int, 0 ≤ n1 → n1 ≤ INT_MAX - 32 →
      ∃ r, wsp_ggml_up n1 32 = Outcome.ret r ∧ wsp_ggml_up32 n1 = Outcome.ret r)) :=
  ⟨by decide, up_smallest_multiple 5 33 (by decide) (by decide)⟩

/-! ## Claims on the fp16 conversion -/

/-- Known binary32 sums reproduced by the model: exact results and ties to even. -/
theorem fp32_add_examples :
    fp32_add 0x3F800000 0x3F800000 = 0x40000000 ∧
    fp32_add 0x3F800000 0x33800000 = 0x3F800000 ∧
    fp32_add 0x3F800001 0x33800000 = 0x3F800002 ∧
    fp32_add 0x3F800000 0x33800001 = 0x3F800001 ∧
    fp32_sub 0x3F800000 0x3F7FFFFF = 0x33800000 ∧
    fp32_sub 0x3F000000 0x3F000000 = 0x00000000 := by
  decide

/-- Known binary32 products reproduced by the model: exact, rounded and subnormal
results. -/
theorem fp32_mul_examples :
    fp32_mul 0x3FC00000 0x40400000 = 0x40900000 ∧
    fp32_mul 0x3EAAAAAB 0x40400000 = 0x3F800000 ∧
    fp32_mul 0x00800000 0x3F000000 = 0x00400000 ∧
    fp32_mul 0x00000001 0x3F000000 = 0x00000000 ∧
    fp32_mul 0x00000003 0x3F000000 = 0x00000002 := by
  decide

/-- Known binary32 special cases reproduced by the model: overflow to infinity, signed
zeros and invalid operations. -/
theorem fp32_special_examples :
    fp32_mul 0x7F7FFFFF 0x40000000 = 0x7F800000 ∧
    fp32_add 0x7F7FFFFF 0x73000000 = 0x7F800000 ∧
    fp32_add 0x7F7FFFFF 0x72FFFFFF = 0x7F7FFFFF ∧
    fp32_add 0x80000000 0x80000000 = 0x80000000 ∧
    fp32_mul 0xBF800000 0x00000000 = 0x80000000 ∧
    fp32_mul 0x7F800000 0x00000000 = FP32_QNAN ∧
    fp32_add 0x7F800000 0xFF800000 = FP32_QNAN := by
  decide

/-- NaN operands are returned quieted, so `wsp_ggml_compute_fp16_to_fp32` maps an fp16
NaN pattern to the float32 NaN with the same sign and payload, quieted. -/
theorem fp32_nan_examples :
    fp32_mul 0x7F802000 0x07800000 = 0x7FC02000 ∧
    fp32_add 0x3F800000 0xFF800001 = 0xFFC00001 ∧
    fp32_sub 0x3F800000 0x7F800001 = 0x7FC00001 ∧
    wsp_ggml_compute_fp16_to_fp32 0x7E00 = 0x7FC00000 ∧
    wsp_ggml_compute_fp16_to_fp32 0x7C01 = 0x7FC02000 ∧
    wsp_ggml_compute_fp16_to_fp32 0xFE00 = 0xFFC00000 := by
  decide

set_option maxRecDepth 8192 in
/-- C13. On the portable path, `wsp_ggml_compute_fp32_to_fp16` of
`wsp_ggml_compute_fp16_to_fp32(p)` is `p` for the fp16 patterns of `0.0`, `-0.0`, `1.0`,
positive infinity and the largest finite value, and
`wsp_ggml_compute_fp16_to_fp32(0x3C00)` is the pattern `0x3F800000` of `1.0f`. -/
theorem fp16_round_trip_examples :
    wsp_ggml_compute_fp32_to_fp16 (wsp_ggml_compute_fp16_to_fp32 0x0000) = 0x0000 ∧
    wsp_ggml_compute_fp32_to_fp16 (wsp_ggml_compute_fp16_to_fp32 0x8000) = 0x8000 ∧
    wsp_ggml_compute_fp32_to_fp16 (wsp_ggml_compute_fp16_to_fp32 0x3C00) = 0x3C00 ∧
    wsp_ggml_compute_fp32_to_fp16 (wsp_ggml_compute_fp16_to_fp32 0x7C00) = 0x7C00 ∧
    wsp_ggml_compute_fp32_to_fp16 (wsp_ggml_compute_fp16_to_fp32 0x7BFF) = 0x7BFF ∧
    wsp_ggml_compute_fp16_to_fp32 0x3C00 = 0x3F800000 := by
  have h0 : wsp_ggml_compute_fp16_to_fp32 0x0000 = 0x00000000 := by decide
  have h1 : wsp_ggml_compute_fp16_to_fp32 0x8000 = 0x80000000 := by decide
  have h2 : wsp_ggml_compute_fp16_to_fp32 0x3C00 = 0x3F800000 := by decide
  have h3 : wsp_ggml_compute_fp16_to_fp32 0x7C00 = 0x7F800000 := by decide
  have h4 : wsp_ggml_compute_fp16_to_fp32 0x7BFF = 0x477FE000 := by decide
  rw [h0, h1, h2, h3, h4]
  refine ⟨by decide, by decide, by decide, by decide, by decide, ?_⟩
  trivial

theorem and_sign_bit (w : Nat) : w &&& 0x80000000 = 0 ∨ w &&& 0x80000000 = 0x80000000 := by
  have h := Nat.and_two_pow w 31
  cases hb : w.testBit 31
  · left
    rw [hb] at h
    simpa using h
  · right
    rw [hb] at h
    simpa using h

/-- C19. On the portable path, for every float32 NaN pattern `w`
(`(w << 1 mod 2^32) > 0xFF000000`), `wsp_ggml_compute_fp32_to_fp16` returns exactly
`((w & 0x80000000) >> 16) | 0x7E00`, whatever pattern `bits` the float intermediates
produce; the result has all exponent bits and a mantissa bit set, so it is neither an
fp16 infinity nor a finite value. -/
theorem fp32_to_fp16_nan (w : Nat) (hnan : (w <<< 1) % UINT32_MOD > 0xFF000000) :
    (∀ bits, wsp_ggml_compute_fp32_to_fp16_bits w bits
      = ((w &&& 0x80000000) >>> 16) ||| 0x7E00) ∧
    wsp_ggml_compute_fp32_to_fp16 w = ((w &&& 0x80000000) >>> 16) ||| 0x7E00 ∧
    (wsp_ggml_compute_fp32_to_fp16 w &&& 0x7FFF) = 0x7E00 := by
  have hnan1 : (w + w) % UINT32_MOD > 0xFF000000 := by
    have e : w <<< 1 = w + w := by rw [Nat.shiftLeft_eq]; omega
    rw [← e]; exact hnan
  have hbits : ∀ bits, wsp_ggml_compute_fp32_to_fp16_bits w bits
      = ((w &&& 0x80000000) >>> 16) ||| 0x7E00 := by
    intro bits
    unfold wsp_ggml_compute_fp32_to_fp16_bits
    simp only [if_pos hnan1]
    rcases and_sign_bit w with hs | hs
    · rw [hs]; decide
    · rw [hs]; decide
  have hfull : wsp_ggml_compute_fp32_to_fp16 w = ((w &&& 0x80000000) >>> 16) ||| 0x7E00 := by
    unfold wsp_ggml_compute_fp32_to_fp16
    exact hbits _
  refine ⟨hbits, hfull, ?_⟩
  rw [hfull]
  rcases and_sign_bit w with hs | hs
  · rw [hs]; decide
  · rw [hs]; decide

theorem fp32_to_fp16_nan_witness :
    ((0xFF800001 <<< 1) % UINT32_MOD > 0xFF000000) ∧
    ((∀ bits, wsp_ggml_compute_fp32_to_fp16_bits 0xFF800001 bits
      = ((0xFF800001 &&& 0x80000000) >>> 16) ||| 0x7E00) ∧
    wsp_ggml_compute_fp32_to_fp16 0xFF800001
      = ((0xFF800001 &&& 0x80000000) >>> 16) ||| 0x7E00 ∧
    (wsp_ggml_compute_fp32_to_fp16 0xFF800001 &&& 0x7FFF) = 0x7E00) :=
  ⟨by decide, fp32_to_fp16_nan 0xFF800001 (by decide)⟩

/-! ## Claims on the op params -/

theorem load32_store32 (mem : List Nat) (off w : Nat) (hoff : off + 3 < mem.length)
    (hw : w < 4294967296) : load32 (store32 mem off w) off = w := by
  unfold load32 store32
  simp only [List.getD_eq_getElem?_getD, List.getElem?_set, List.length_set]
  have h0 : off < mem.length := by omega
  have h1 : off + 1 < mem.length := by omega
  have h2 : off + 2 < mem.length := by omega
  simp [h0, h1, h2, hoff]
  omega

theorem int32_of_bits_of_int32 (v : Int) (hlo : -2147483648 ≤ v) (hhi : v < 2147483648) :
    int32_of_bits (bits_of_int32 v) = v := by
  unfold int32_of_bits bits_of_int32
  have hnn : 0 ≤ v % 4294967296 := Int.emod_nonneg _ (by norm_num)
  have hcast : (((v % 4294967296).toNat : Nat) : Int) = v % 4294967296 := Int.toNat_of_nonneg hnn
  split
  · next h =>
    have h1 : (((v % 4294967296).toNat : Nat) : Int) < 2147483648 := by exact_mod_cast h
    rw [hcast] at h1 ⊢
    omega
  · next h =>
    have h1 : ¬ (((v % 4294967296).toNat : Nat) : Int) < 2147483648 := by
      intro h2; exact h (by exact_mod_cast h2)
    rw [hcast] at h1 ⊢
    omega

theorem bits_of_int32_lt (v : Int) : bits_of_int32 v < 4294967296 := by
  unfold bits_of_int32
  have hnn : 0 ≤ v % 4294967296 := Int.emod_nonneg _ (by norm_num)
  have hlt : v % 4294967296 < 4294967296 := Int.emod_lt_of_pos _ (by norm_num)
  omega

theorem assert_flag (ndebug : Bool) (p : Prop) [Decidable p] :
    (!ndebug && !decide p) = true ↔ ndebug = false ∧ ¬ p := by
  cases ndebug <;> simp

/-- C14. For every op-params blob of at least `4 * (WSP_GGML_MAX_OP_PARAMS / 4)` bytes,
every slot `i < WSP_GGML_MAX_OP_PARAMS / 4` and every 32-bit signed value `v`, in either
build, `wsp_ggml_set_op_params_i32(tensor, i, v)` returns and a following
`wsp_ggml_get_op_params_i32(tensor, i)` returns `v`. -/
theorem op_params_i32_round_trip (ndebug : Bool) (cap : Nat) (blob : List Nat) (i : Nat)
    (v : Int) (hblob : 4 * (cap / 4) ≤ blob.length) (hi : i < cap / 4)
    (hlo : -2147483648 ≤ v) (hhi : v < 2147483648) :
    ∃ blob1, wsp_ggml_set_op_params_i32 ndebug cap (some blob) i v
        = (Outcome.ret (), some blob1) ∧
      wsp_ggml_get_op_params_i32 ndebug cap (some blob1) i = Outcome.ret v := by
  have hoff : 4 * i + 3 < blob.length := by omega
  have hassert : (!ndebug && !decide (i < cap / 4)) = false := by simp [hi]
  refine ⟨store32 blob (4 * i) (bits_of_int32 v), ?_, ?_⟩
  · unfold wsp_ggml_set_op_params_i32
    rw [hassert]
    simp only [if_pos hoff]
    rfl
  · unfold wsp_ggml_get_op_params_i32
    have hlen : (store32 blob (4 * i) (bits_of_int32 v)).length = blob.length := by
      simp [store32]
    rw [hassert]
    simp only [hlen, if_pos hoff]
    rw [load32_store32 blob (4 * i) _ hoff (bits_of_int32_lt v),
      int32_of_bits_of_int32 v hlo hhi]
    rfl

theorem op_params_i32_round_trip_witness :
    (4 * (64 / 4) ≤ zero_blob.length ∧ 3 < 64 / 4 ∧ (-2147483648 : Int) ≤ -5 ∧
      (-5 : Int) < 2147483648) ∧
    ∃ blob1, wsp_ggml_set_op_params_i32 false 64 (some zero_blob) 3 (-5)
        = (Outcome.ret (), some blob1) ∧
      wsp_ggml_get_op_params_i32 false 64 (some blob1) 3 = Outcome.ret (-5) :=
  ⟨by decide, op_params_i32_round_trip false 64 zero_blob 3 (-5) (by decide) (by decide)
    (by decide) (by decide)⟩

/-- C15, refuted as stated: in a build with `NDEBUG` the `assert`s are no statements, and
with capacity 64 neither the typed accessors at slot `16 >= 64 / 4` nor
`wsp_ggml_set_op_params` with `params_size = 65 > 64` fail: the access outside the blob
is made. -/
theorem op_params_unchecked_under_ndebug :
    16 ≥ 64 / 4 ∧
    wsp_ggml_get_op_params_i32 true 64 (some zero_blob) 16 ≠ Outcome.abort ∧
    wsp_ggml_get_op_params_f32 true 64 (some zero_blob) 16 ≠ Outcome.abort ∧
    (wsp_ggml_set_op_params_i32 true 64 (some zero_blob) 16 7).1 ≠ Outcome.abort ∧
    (wsp_ggml_set_op_params_f32 true 64 (some zero_blob) 16 7).1 ≠ Outcome.abort ∧
    65 > 64 ∧
    (wsp_ggml_set_op_params true 64 (some zero_blob) (List.replicate 65 1) 65).1
      ≠ Outcome.abort := by
  decide

/-- C15, amended. In a build without `NDEBUG` the op-params operations fail exactly on a
bound violation: `wsp_ggml_set_op_params` on a non-null tensor fails if and only if
`params_size > WSP_GGML_MAX_OP_PARAMS`, and each of `wsp_ggml_get_op_params_i32`,
`wsp_ggml_get_op_params_f32`, `wsp_ggml_set_op_params_i32` and
`wsp_ggml_set_op_params_f32` fails if and only if `i >= WSP_GGML_MAX_OP_PARAMS / 4`; in
a build with `NDEBUG` none of them fails on a bound violation; in either build, when a
setter fails the blob is the one it was called with. -/
theorem op_params_fail_iff_out_of_bounds (ndebug : Bool) (cap : Nat)
    (blob params : List Nat) (tensor : Option (List Nat)) (params_size i : Nat) (v : Int)
    (f : Nat) :
    ((wsp_ggml_set_op_params ndebug cap (some blob) params params_size).1 = Outcome.abort ↔
      ndebug = false ∧ params_size > cap) ∧
    (wsp_ggml_get_op_params_i32 ndebug cap tensor i = Outcome.abort ↔
      ndebug = false ∧ i ≥ cap / 4) ∧
    (wsp_ggml_get_op_params_f32 ndebug cap tensor i = Outcome.abort ↔
      ndebug = false ∧ i ≥ cap / 4) ∧
    ((wsp_ggml_set_op_params_i32 ndebug cap tensor i v).1 = Outcome.abort ↔
      ndebug = false ∧ i ≥ cap / 4) ∧
    ((wsp_ggml_set_op_params_f32 ndebug cap tensor i f).1 = Outcome.abort ↔
      ndebug = false ∧ i ≥ cap / 4) ∧
    ((wsp_ggml_set_op_params ndebug cap (some blob) params params_size).1 = Outcome.abort →
      (wsp_ggml_set_op_params ndebug cap (some blob) params params_size).2 = some blob) ∧
    ((wsp_ggml_set_op_params_i32 ndebug cap tensor i v).1 = Outcome.abort →
      (wsp_ggml_set_op_params_i32 ndebug cap tensor i v).2 = tensor) ∧
    ((wsp_ggml_set_op_params_f32 ndebug cap tensor i f).1 = Outcome.abort →
      (wsp_ggml_set_op_params_f32 ndebug cap tensor i f).2 = tensor) := by
  refine ⟨?_, ?_, ?_, ?_, ?_, ?_, ?_, ?_⟩
  · unfold wsp_ggml_set_op_params
    dsimp only
    by_cases hc : (!ndebug && !decide (params_size ≤ cap)) = true
    · rw [if_pos hc]
      have hc1 := (assert_flag _ _).1 hc
      exact ⟨fun _ => ⟨hc1.1, by omega⟩, fun _ => rfl⟩
    · rw [if_neg hc]
      constructor
      · intro hab
        split at hab <;> cases hab
      · intro hb
        exact absurd ((assert_flag _ _).2 ⟨hb.1, by omega⟩) hc
  · unfold wsp_ggml_get_op_params_i32
    by_cases hc : (!ndebug && !decide (i < cap / 4)) = true
    · rw [if_pos hc]
      have hc1 := (assert_flag _ _).1 hc
      exact ⟨fun _ => ⟨hc1.1, by omega⟩, fun _ => rfl⟩
    · rw [if_neg hc]
      constructor
      · intro hab
        cases tensor with
        | none => cases hab
        | some b =>
          simp only at hab
          split at hab <;> cases hab
      · intro hb
        exact absurd ((assert_flag _ _).2 ⟨hb.1, by omega⟩) hc
  · unfold wsp_ggml_get_op_params_f32
    by_cases hc : (!ndebug && !decide (i < cap / 4)) = true
    · rw [if_pos hc]
      have hc1 := (assert_flag _ _).1 hc
      exact ⟨fun _ => ⟨hc1.1, by omega⟩, fun _ => rfl⟩
    · rw [if_neg hc]
      constructor
      · intro hab
        cases tensor with
        | none => cases hab
        | some b =>
          simp only at hab
          split at hab <;> cases hab
      · intro hb
        exact absurd ((assert_flag _ _).2 ⟨hb.1, by omega⟩) hc
  · unfold wsp_ggml_set_op_params_i32
    by_cases hc : (!ndebug && !decide (i < cap / 4)) = true
    · rw [if_pos hc]
      have hc1 := (assert_flag _ _).1 hc
      exact ⟨fun _ => ⟨hc1.1, by omega⟩, fun _ => rfl⟩
    · rw [if_neg hc]
      constructor
      · intro hab
        cases tensor with
        | none => cases hab
        | some b =>
          simp only at hab
          split at hab <;> cases hab
      · intro hb
        exact absurd ((assert_flag _ _).2 ⟨hb.1, by omega⟩) hc
  · unfold wsp_ggml_set_op_params_f32
    by_cases hc : (!ndebug && !decide (i < cap / 4)) = true
    · rw [if_pos hc]
      have hc1 := (assert_flag _ _).1 hc
      exact ⟨fun _ => ⟨hc1.1, by omega⟩, fun _ => rfl⟩
    · rw [if_neg hc]
      constructor
      · intro hab
        cases tensor with
        | none => cases hab
        | some b =>
          simp only at hab
          split at hab <;> cases hab
      · intro hb
        exact absurd ((assert_flag _ _).2 ⟨hb.1, by omega⟩) hc
  · unfold wsp_ggml_set_op_params
    dsimp only
    by_cases hc : (!ndebug && !decide (params_size ≤ cap)) = true
    · rw [if_pos hc]
      exact fun _ => rfl
    · rw [if_neg hc]
      intro hab
      split at hab <;> cases hab
  · unfold wsp_ggml_set_op_params_i32
    by_cases hc : (!ndebug && !decide (i < cap / 4)) = true
    · rw [if_pos hc]
      exact fun _ => rfl
    · rw [if_neg hc]
      intro hab
      cases tensor with
      | none => cases hab
      | some b =>
        simp only at hab
        split at hab <;> cases hab
  · unfold wsp_ggml_set_op_params_f32
    by_cases hc : (!ndebug && !decide (i < cap / 4)) = true
    · rw [if_pos hc]
      exact fun _ => rfl
    · rw [if_neg hc]
      intro hab
      cases tensor with
      | none => cases hab
      | some b =>
        simp only at hab
        split at hab <;> cases hab

/-! ## Runs that return -/

/-- The slots occupied in `hs` are occupied in `hs1` and hold the same key. -/
theorem store_preserves (hs : wsp_ggml_hash_set) (r key i : Nat)
    (hr : wsp_ggml_bitset_get hs.used r = false)
    (hi : wsp_ggml_bitset_get hs.used i = true) :
    wsp_ggml_bitset_get (store hs r key).used i = true ∧
      (store hs r key).keys.getD i 0 = hs.keys.getD i 0 := by
  have hir : i ≠ r := by
    intro h
    rw [h, hr] at hi; cases hi
  exact ⟨by rw [store_used_other hs r key i hir]; exact hi, store_keys_other hs r key i hir⟩

theorem op_run_inv (hs hs1 : wsp_ggml_hash_set) (S : Finset Nat) (op : hash_op) (v : Nat)
    (hinv : Inv hs S) (hrun : op.run hs = Outcome.ret (v, hs1)) :
    Inv hs1 (insert op.key S) ∧ hs1.size = hs.size ∧
    ∀ i, wsp_ggml_bitset_get hs.used i = true →
      wsp_ggml_bitset_get hs1.used i = true ∧ hs1.keys.getD i 0 = hs.keys.getD i 0 := by
  have hw := hinv.1
  cases op with
  | insert key =>
    simp only [hash_op.run] at hrun
    rcases insert_spec hs key hw.1 hw.2.1 with ⟨h1, _⟩ | ⟨e, he, h1⟩
    · rw [h1] at hrun; cases hrun
    · rw [h1] at hrun
      by_cases hu : wsp_ggml_bitset_get hs.used (probe hs key e) = true
      · rw [if_pos hu] at hrun
        injection hrun with hrun
        injection hrun with _ hst
        rw [← hst]
        exact ⟨inv_present hs S key e hinv he hu, rfl, fun i hi => ⟨hi, rfl⟩⟩
      · rw [if_neg hu] at hrun
        injection hrun with hrun
        injection hrun with _ hst
        rw [← hst]
        have hu0 : wsp_ggml_bitset_get hs.used (probe hs key e) = false := by simpa using hu
        exact ⟨inv_store hs S key e hinv he hu0, rfl,
          fun i hi => store_preserves hs _ key i hu0 hi⟩
  | find_or_insert key =>
    simp only [hash_op.run] at hrun
    rcases find_or_insert_spec hs key hw.1 hw.2.1 with ⟨h1, _⟩ | ⟨e, he, h1⟩
    · rw [h1] at hrun; cases hrun
    · rw [h1] at hrun
      by_cases hu : wsp_ggml_bitset_get hs.used (probe hs key e) = true
      · rw [if_pos hu] at hrun
        injection hrun with hrun
        injection hrun with _ hst
        rw [← hst]
        exact ⟨inv_present hs S key e hinv he hu, rfl, fun i hi => ⟨hi, rfl⟩⟩
      · rw [if_neg hu] at hrun
        injection hrun with hrun
        injection hrun with _ hst
        rw [← hst]
        have hu0 : wsp_ggml_bitset_get hs.used (probe hs key e) = false := by simpa using hu
        exact ⟨inv_store hs S key e hinv he hu0, rfl,
          fun i hi => store_preserves hs _ key i hu0 hi⟩

theorem run_ops_inv (ops : List hash_op) :
    ∀ (hs hs1 : wsp_ggml_hash_set) (S : Finset Nat) (rs : List Nat), Inv hs S →
      run_ops hs ops = Outcome.ret (rs, hs1) →
      (∃ S1, Inv hs1 S1) ∧ hs1.size = hs.size ∧
      ∀ i, wsp_ggml_bitset_get hs.used i = true →
        wsp_ggml_bitset_get hs1.used i = true ∧ hs1.keys.getD i 0 = hs.keys.getD i 0 := by
  induction ops with
  | nil =>
    intro hs hs1 S rs hinv hrun
    simp only [run_ops] at hrun
    injection hrun with hrun
    injection hrun with _ hst
    rw [← hst]
    exact ⟨⟨S, hinv⟩, rfl, fun i hi => ⟨hi, rfl⟩⟩
  | cons op ops ih =>
    intro hs hs1 S rs hinv hrun
    cases hop : op.run hs with
    | ret p =>
      obtain ⟨v, hsm⟩ := p
      cases hrest : run_ops hsm ops with
      | ret q =>
        obtain ⟨vs, hs2⟩ := q
        simp only [run_ops, hop, hrest] at hrun
        injection hrun with hrun
        injection hrun with _ hst
        obtain ⟨hinvm, hszm, hmonom⟩ := op_run_inv hs hsm S op v hinv hop
        obtain ⟨hex, hsz2, hmono2⟩ := ih hsm hs2 (insert op.key S) vs hinvm hrest
        rw [← hst]
        refine ⟨hex, by rw [hsz2, hszm], ?_⟩
        intro i hi
        obtain ⟨h1, h2⟩ := hmonom i hi
        obtain ⟨h3, h4⟩ := hmono2 i h1
        exact ⟨h3, by rw [h4, h2]⟩
      | abort => simp only [run_ops, hop, hrest] at hrun; cases hrun
      | undef => simp only [run_ops, hop, hrest] at hrun; cases hrun
      | exhausted => simp only [run_ops, hop, hrest] at hrun; cases hrun
    | abort => simp only [run_ops, hop] at hrun; cases hrun
    | undef => simp only [run_ops, hop] at hrun; cases hrun
    | exhausted => simp only [run_ops, hop] at hrun; cases hrun

theorem busy_occupied (hs : wsp_ggml_hash_set) (key i : Nat) (h : busy hs key i = true) :
    wsp_ggml_bitset_get hs.used i = true := by
  unfold busy at h
  simp only [Bool.and_eq_true] at h
  exact h.1

/-- C16. Probe-chain invariant: in every state `hs1` reached from an empty set with
`size > 0` by calls of `wsp_ggml_hash_insert` and `wsp_ggml_hash_find_or_insert` that
all returned, no key is stored in two different occupied slots, and for every occupied
slot `i` holding key `k` every slot of the probe path from `wsp_ggml_hash(k) % size` up
to `i` is occupied; `size` is the one of the empty set, and after any further calls that
return, `size` is the same and every slot occupied in `hs1` is still occupied and holds
the same key. -/
theorem probe_chain_invariant (hs0 hs1 hs2 : wsp_ggml_hash_set) (ops1 ops2 : List hash_op)
    (rs1 rs2 : List Nat) (hw : WellFormed hs0)
    (hempty : ∀ i, i < hs0.size → wsp_ggml_bitset_get hs0.used i = false)
    (hrun1 : run_ops hs0 ops1 = Outcome.ret (rs1, hs1))
    (hrun2 : run_ops hs1 ops2 = Outcome.ret (rs2, hs2)) :
    (∀ i j, i < hs1.size → j < hs1.size → wsp_ggml_bitset_get hs1.used i = true →
      wsp_ggml_bitset_get hs1.used j = true → hs1.keys.getD i 0 = hs1.keys.getD j 0 →
      i = j) ∧
    (∀ i, i < hs1.size → wsp_ggml_bitset_get hs1.used i = true →
      ∃ d, d < hs1.size ∧
        (wsp_ggml_hash (hs1.keys.getD i 0) % hs1.size + d) % hs1.size = i ∧
        ∀ j, j ≤ d → wsp_ggml_bitset_get hs1.used
          ((wsp_ggml_hash (hs1.keys.getD i 0) % hs1.size + j) % hs1.size) = true) ∧
    hs1.size = hs0.size ∧ hs2.size = hs1.size ∧
    (∀ i, i < hs1.size → wsp_ggml_bitset_get hs1.used i = true →
      wsp_ggml_bitset_get hs2.used i = true ∧ hs2.keys.getD i 0 = hs1.keys.getD i 0) := by
  obtain ⟨⟨S1, hinv1⟩, hsz1, _⟩ :=
    run_ops_inv ops1 hs0 hs1 ∅ rs1 (inv_empty hs0 hw hempty) hrun1
  obtain ⟨_, hsz2, hmono⟩ := run_ops_inv ops2 hs1 hs2 S1 rs2 hinv1 hrun2
  refine ⟨?_, ?_, hsz1, hsz2, fun i _ hi => hmono i hi⟩
  · intro i j hi hj hui huj hij
    exact chain_keys_injective hs1 hinv1.2.1 i j hi hj hui huj hij
  · intro i hi hui
    obtain ⟨d, hd, hdi⟩ := hinv1.2.1 i hi hui
    refine ⟨d, hd.1, hdi, ?_⟩
    intro j hj
    by_cases hjd : j < d
    · exact busy_occupied hs1 _ _ (hd.2.1 j hjd)
    · have hjeq : j = d := by omega
      rw [hjeq]
      have : probe hs1 (hs1.keys.getD i 0) d = i := hdi
      unfold probe at this
      rw [this]; exact hui

theorem probe_chain_invariant_witness :
    (WellFormed empty_set ∧
      (∀ i, i < empty_set.size → wsp_ggml_bitset_get empty_set.used i = false) ∧
      run_ops empty_set [hash_op.insert 16, hash_op.find_or_insert 80]
        = Outcome.ret ([1, 2], { size := 4, used := [6], keys := [0, 16, 80, 0] }) ∧
      run_ops { size := 4, used := [6], keys := [0, 16, 80, 0] } [hash_op.insert 48]
        = Outcome.ret ([3], { size := 4, used := [14], keys := [0, 16, 80, 48] })) ∧
    ((∀ i j, i < 4 → j < 4 → wsp_ggml_bitset_get [6] i = true →
      wsp_ggml_bitset_get [6] j = true →
      [0, 16, 80, 0].getD i 0 = [0, 16, 80, 0].getD j 0 → i = j) ∧
    (∀ i, i < 4 → wsp_ggml_bitset_get [6] i = true →
      ∃ d, d < 4 ∧ (wsp_ggml_hash ([0, 16, 80, 0].getD i 0) % 4 + d) % 4 = i ∧
        ∀ j, j ≤ d → wsp_ggml_bitset_get [6]
          ((wsp_ggml_hash ([0, 16, 80, 0].getD i 0) % 4 + j) % 4) = true) ∧
    (4 : Nat) = empty_set.size ∧ (4 : Nat) = 4 ∧
    (∀ i, i < 4 → wsp_ggml_bitset_get [6] i = true →
      wsp_ggml_bitset_get [14] i = true ∧
        [0, 16, 80, 48].getD i 0 = [0, 16, 80, 0].getD i 0)) :=
  ⟨⟨⟨by decide, by decide, by decide, by decide⟩, by decide, by decide, by decide⟩,
    probe_chain_invariant empty_set { size := 4, used := [6], keys := [0, 16, 80, 0] }
      { size := 4, used := [14], keys := [0, 16, 80, 48] }
      [hash_op.insert 16, hash_op.find_or_insert 80] [hash_op.insert 48] [1, 2] [3]
      ⟨by decide, by decide, by decide, by decide⟩ (by decide) (by decide) (by decide)⟩

/-! ## Accesses in bounds -/

theorem bitset_get_checked_eq (b : List Nat) (i : Nat) (h : i >>> BITSET_SHR < b.length) :
    wsp_ggml_bitset_get_checked b i = some (wsp_ggml_bitset_get b i) := by
  unfold wsp_ggml_bitset_get_checked wsp_ggml_bitset_get
  rw [List.getD_eq_getElem?_getD, List.getElem?_eq_getElem h]
  rfl

theorem bitset_set_checked_eq (b : List Nat) (i : Nat) (h : i >>> BITSET_SHR < b.length) :
    wsp_ggml_bitset_set_checked b i = some (wsp_ggml_bitset_set b i) := by
  unfold wsp_ggml_bitset_set_checked wsp_ggml_bitset_set
  rw [List.getD_eq_getElem?_getD, List.getElem?_eq_getElem h]
  rfl

theorem keys_get_eq (l : List Nat) (i : Nat) (h : i < l.length) :
    l[i]? = some (l.getD i 0) := by
  rw [List.getD_eq_getElem?_getD, List.getElem?_eq_getElem h]
  rfl

theorem word_index_lt (n i : Nat) (hi : i < n) (hn : n + 31 < SIZE_MOD) :
    i >>> BITSET_SHR < wsp_ggml_bitset_size n := by
  unfold wsp_ggml_bitset_size
  have hm : BITSET_MASK = 31 := by decide
  have hs : BITSET_SHR = 5 := rfl
  rw [hm, hs, Nat.mod_eq_of_lt hn, Nat.shiftRight_eq_div_pow, Nat.shiftRight_eq_div_pow]
  have h32 : (2 : Nat) ^ 5 = 32 := by norm_num
  rw [h32]
  omega

theorem find_loop_checked_eq (hs : wsp_ggml_hash_set) (key h : Nat) (hpos : 0 < hs.size)
    (hword : ∀ i, i < hs.size → i >>> BITSET_SHR < hs.used.length)
    (hkeys : hs.keys.length = hs.size) :
    ∀ budget i, i < hs.size →
      wsp_ggml_hash_find_loop_checked hs key h budget i
        = wsp_ggml_hash_find_loop hs key h budget i := by
  intro budget
  induction budget with
  | zero => intro i _; rfl
  | succ b ih =>
    intro i hi
    have hnext : ((i + 1) % SIZE_MOD) % hs.size < hs.size := Nat.mod_lt _ hpos
    rw [wsp_ggml_hash_find_loop_checked, wsp_ggml_hash_find_loop, if_pos hi,
      bitset_get_checked_eq hs.used i (hword i hi), keys_get_eq hs.keys i (by omega)]
    cases hu : wsp_ggml_bitset_get hs.used i
    · simp
    · simp [ih _ hnext]

theorem insert_loop_checked_eq (hs : wsp_ggml_hash_set) (key h : Nat) (hpos : 0 < hs.size)
    (hword : ∀ i, i < hs.size → i >>> BITSET_SHR < hs.used.length)
    (hkeys : hs.keys.length = hs.size) :
    ∀ budget i, i < hs.size →
      wsp_ggml_hash_insert_loop_checked hs key h budget i
        = wsp_ggml_hash_insert_loop hs key h budget i := by
  intro budget
  induction budget with
  | zero => intro i _; rfl
  | succ b ih =>
    intro i hi
    have hnext : ((i + 1) % SIZE_MOD) % hs.size < hs.size := Nat.mod_lt _ hpos
    have hik : i < hs.keys.length := by omega
    rw [wsp_ggml_hash_insert_loop_checked, wsp_ggml_hash_insert_loop, if_pos hi,
      bitset_get_checked_eq hs.used i (hword i hi), keys_get_eq hs.keys i hik,
      bitset_set_checked_eq hs.used i (hword i hi)]
    cases hu : wsp_ggml_bitset_get hs.used i
    · simp [hik]
    · simp [ih _ hnext]

theorem find_or_insert_loop_checked_eq (hs : wsp_ggml_hash_set) (key h : Nat)
    (hpos : 0 < hs.size)
    (hword : ∀ i, i < hs.size → i >>> BITSET_SHR < hs.used.length)
    (hkeys : hs.keys.length = hs.size) :
    ∀ budget i, i < hs.size →
      wsp_ggml_hash_find_or_insert_loop_checked hs key h budget i
        = wsp_ggml_hash_find_or_insert_loop hs key h budget i := by
  intro budget
  induction budget with
  | zero => intro i _; rfl
  | succ b ih =>
    intro i hi
    have hnext : ((i + 1) % SIZE_MOD) % hs.size < hs.size := Nat.mod_lt _ hpos
    have hik : i < hs.keys.length := by omega
    rw [wsp_ggml_hash_find_or_insert_loop_checked, wsp_ggml_hash_find_or_insert_loop,
      if_pos hi, bitset_get_checked_eq hs.used i (hword i hi), keys_get_eq hs.keys i hik,
      bitset_set_checked_eq hs.used i (hword i hi)]
    cases hu : wsp_ggml_bitset_get hs.used i
    · simp [hik]
    · simp [ih _ hnext]

/-- C18. All accesses of the hash-set operations are in bounds: for every hash set with
`size > 0` whose `used` buffer has `wsp_ggml_bitset_size(size)` words and whose `keys`
array has `size` entries (an array object, so its `8 * size` bytes are a `size_t`), the
word index `i >> 5` of every slot `i < size` is below `wsp_ggml_bitset_size(size)`, and
`wsp_ggml_hash_find`, `wsp_ggml_hash_contains`, `wsp_ggml_hash_insert` and
`wsp_ggml_hash_find_or_insert` with every access checked (slot index below `size`, word
and key entry present) never take the out-of-range branch: they give the result of the
unchecked functions. -/
theorem hash_accesses_in_bounds (hs : wsp_ggml_hash_set) (key : Nat) (hpos : 0 < hs.size)
    (hused : hs.used.length = wsp_ggml_bitset_size hs.size)
    (hkeys : hs.keys.length = hs.size) (hobj : 8 * hs.keys.length < SIZE_MOD) :
    (∀ i, i < hs.size → i >>> BITSET_SHR < wsp_ggml_bitset_size hs.size) ∧
    wsp_ggml_hash_find_checked hs key = wsp_ggml_hash_find hs key ∧
    wsp_ggml_hash_contains_checked hs key = wsp_ggml_hash_contains hs key ∧
    wsp_ggml_hash_insert_checked hs key = wsp_ggml_hash_insert hs key ∧
    wsp_ggml_hash_find_or_insert_checked hs key = wsp_ggml_hash_find_or_insert hs key ∧
    wsp_ggml_hash_find_checked hs key ≠ Outcome.undef ∧
    wsp_ggml_hash_contains_checked hs key ≠ Outcome.undef ∧
    wsp_ggml_hash_insert_checked hs key ≠ Outcome.undef ∧
    wsp_ggml_hash_find_or_insert_checked hs key ≠ Outcome.undef := by
  have hmod : SIZE_MOD = 18446744073709551616 := rfl
  have hlt : hs.size < SIZE_MOD := by omega
  have hword0 : ∀ i, i < hs.size → i >>> BITSET_SHR < wsp_ggml_bitset_size hs.size :=
    fun i hi => word_index_lt hs.size i hi (by omega)
  have hword : ∀ i, i < hs.size → i >>> BITSET_SHR < hs.used.length := by
    intro i hi; rw [hused]; exact hword0 i hi
  have hne : ¬ hs.size = 0 := by omega
  have hh : wsp_ggml_hash key % hs.size < hs.size := Nat.mod_lt _ hpos
  have hfind : wsp_ggml_hash_find_checked hs key = wsp_ggml_hash_find hs key := by
    unfold wsp_ggml_hash_find_checked wsp_ggml_hash_find
    rw [if_neg hne, if_neg hne]
    exact find_loop_checked_eq hs key _ hpos hword hkeys _ _ hh
  have hins : wsp_ggml_hash_insert_checked hs key = wsp_ggml_hash_insert hs key := by
    unfold wsp_ggml_hash_insert_checked wsp_ggml_hash_insert
    rw [if_neg hne, if_neg hne]
    exact insert_loop_checked_eq hs key _ hpos hword hkeys _ _ hh
  have hfoi : wsp_ggml_hash_find_or_insert_checked hs key
      = wsp_ggml_hash_find_or_insert hs key := by
    unfold wsp_ggml_hash_find_or_insert_checked wsp_ggml_hash_find_or_insert
    rw [if_neg hne, if_neg hne]
    exact find_or_insert_loop_checked_eq hs key _ hpos hword hkeys _ _ hh
  have hcont : wsp_ggml_hash_contains_checked hs key = wsp_ggml_hash_contains hs key := by
    unfold wsp_ggml_hash_contains_checked wsp_ggml_hash_contains
    rw [hfind]
    rcases find_spec hs key hpos hlt with ⟨h1, _⟩ | ⟨e, _, h1⟩
    · rw [h1]; simp
    · rw [h1]
      have hp := probe_lt hs key e hpos
      have hnf := probe_ne_full hs key e hpos hlt
      simp [hnf, hp, bitset_get_checked_eq hs.used _ (hword _ hp)]
  refine ⟨hword0, hfind, hcont, hins, hfoi, ?_, ?_, ?_, ?_⟩
  · rw [hfind]
    rcases find_spec hs key hpos hlt with ⟨h1, _⟩ | ⟨e, _, h1⟩
    · rw [h1]; intro h; cases h
    · rw [h1]; intro h; cases h
  · rw [hcont]
    unfold wsp_ggml_hash_contains
    rcases find_spec hs key hpos hlt with ⟨h1, _⟩ | ⟨e, _, h1⟩
    · rw [h1]; intro h; cases h
    · rw [h1]; intro h; cases h
  · rw [hins]
    rcases insert_spec hs key hpos hlt with ⟨h1, _⟩ | ⟨e, _, h1⟩
    · rw [h1]; intro h; cases h
    · rw [h1]
      split <;> (intro h; cases h)
  · rw [hfoi]
    rcases find_or_insert_spec hs key hpos hlt with ⟨h1, _⟩ | ⟨e, _, h1⟩
    · rw [h1]; intro h; cases h
    · rw [h1]
      split <;> (intro h; cases h)

theorem hash_accesses_in_bounds_witness :
    (0 < sample_set.size ∧ sample_set.used.length = wsp_ggml_bitset_size sample_set.size ∧
      sample_set.keys.length = sample_set.size ∧ 8 * sample_set.keys.length < SIZE_MOD) ∧
    ((∀ i, i < sample_set.size → i >>> BITSET_SHR < wsp_ggml_bitset_size sample_set.size) ∧
    wsp_ggml_hash_find_checked sample_set 64 = wsp_ggml_hash_find sample_set 64 ∧
    wsp_ggml_hash_contains_checked sample_set 64 = wsp_ggml_hash_contains sample_set 64 ∧
    wsp_ggml_hash_insert_checked sample_set 64 = wsp_ggml_hash_insert sample_set 64 ∧
    wsp_ggml_hash_find_or_insert_checked sample_set 64
      = wsp_ggml_hash_find_or_insert sample_set 64 ∧
    wsp_ggml_hash_find_checked sample_set 64 ≠ Outcome.undef ∧
    wsp_ggml_hash_contains_checked sample_set 64 ≠ Outcome.undef ∧
    wsp_ggml_hash_insert_checked sample_set 64 ≠ Outcome.undef ∧
    wsp_ggml_hash_find_or_insert_checked sample_set 64 ≠ Outcome.undef) :=
  ⟨by decide, hash_accesses_in_bounds sample_set 64 (by decide) (by decide) (by decide)
    (by decide)⟩

end GgmlImpl
